import Mathlib

/-!
Verification development for the IncidentInsightHub ingestion/normalization
pipeline (`src/data_processor.py`) and the five analyzers (`src/analyzers.py`).

The pandas `DataFrame` is modelled column-major: a `Table` is a list of named
columns, each column a list of cells; a cell is `Option Val` where `none`
models a missing value (`NaN` / `NaT`).  External library behaviour that the
code relies on is passed in explicitly: `pd.to_datetime` becomes a parse
function `Val → Option ℚ` (timestamps are rationals, in seconds), `strftime`
becomes formatting functions `ℚ → String`, and `datetime.now()` becomes a
rational parameter.  The analyzer passes operate on the canonical dataset and
are modelled over a typed `Record`, with pandas semantics made explicit:
`groupby` sorts its keys ascending and drops null keys, `Series.mode` returns
the modally-frequent values sorted ascending, `mean` skips nulls, and
comparisons with `NaN` are false.
-/

namespace Hub

/-- A scalar cell value of a table: a string or a number (timestamps are
numbers counting seconds). -/
inductive Val where
  | vstr (s : String)
  | vnum (q : ℚ)
  | vbool (b : Bool)
deriving DecidableEq, Repr

/-- A table cell: `none` models pandas missing data (`NaN`/`NaT`/`None`). -/
abbrev Cell := Option Val

/-- Extract a numeric cell value. -/
def asNum : Cell → Option ℚ
  | some (Val.vnum q) => some q
  | _ => none

/-- A pandas DataFrame, column-major: named columns in order. -/
structure Table where
  cols : List (String × List Cell)
deriving DecidableEq, Repr

/-- The column names of a table, in order. -/
def Table.colNames (t : Table) : List String := t.cols.map (·.1)

/-- `len(df)`: number of rows, read off the first column (0 when there are no
columns, as for an empty DataFrame). -/
def Table.nrows (t : Table) : Nat :=
  match t.cols with
  | [] => 0
  | c :: _ => c.2.length

/-- `df[name]` as a column read: the first column with the given name, if
any. -/
def Table.getCol (t : Table) (n : String) : Option (List Cell) :=
  (t.cols.find? (fun p => p.1 = n)).map (·.2)

/-- A single cell: `none` when the column or row is missing, or the cell is
null. -/
def Table.getCell (t : Table) (n : String) (i : Nat) : Cell :=
  (((t.getCol n).getD [])[i]?).join

/-- Helper for `df[name] = cells`: replace the cells of the first column with
this name, or append a new column at the end (pandas column assignment). -/
def setColCells : List (String × List Cell) → String → List Cell →
    List (String × List Cell)
  | [], n, cs => [(n, cs)]
  | (m, ds) :: rest, n, cs =>
    if m = n then (m, cs) :: rest else (m, ds) :: setColCells rest n cs

/-- `df[name] = cells`. -/
def Table.setCol (t : Table) (n : String) (cs : List Cell) : Table :=
  ⟨setColCells t.cols n cs⟩

/-! ### DataProcessor: schema mapping (`standardize_columns`) -/

/-- `DataProcessor.get_column_mappings`: canonical field name to the accepted
source aliases, in source order. -/
def get_column_mappings : List (String × List String) :=
  [ ("incident_id", ["incident_id", "id", "ticket_id", "case_id", "incident_number"]),
    ("title", ["title", "summary", "description", "issue_title", "incident_title"]),
    ("category", ["category", "type", "issue_type", "incident_type"]),
    ("priority", ["priority", "severity", "impact"]),
    ("status", ["status", "state", "current_status"]),
    ("created_date", ["created_date", "create_date", "date_created", "incident_date", "created"]),
    ("resolved_date", ["resolved_date", "resolution_date", "closed_date", "date_resolved"]),
    ("assigned_team", ["assigned_team", "team", "backend_team", "responsible_team"]),
    ("resolution_time", ["resolution_time", "time_to_resolve", "sla_time"]) ]

/-- ASCII lowering of one character (`str.lower()` on the ASCII column names
and aliases this system deals with). -/
def lowerChar (c : Char) : Char :=
  if 65 ≤ c.toNat ∧ c.toNat ≤ 90 then Char.ofNat (c.toNat + 32) else c

/-- `s.lower()`. -/
def lowerString (s : String) : String := String.mk (s.data.map lowerChar)

/-- The nine canonical field names. -/
def canonical_fields : List String := get_column_mappings.map (·.1)

/-- `col.lower() in [v.lower() for v in variations]`. -/
def matchesVars (vars : List String) (n : String) : Bool :=
  (vars.map lowerString).contains (lowerString n)

/-- Python dict assignment `d[k] = v`: overwrite in place, else append. -/
def insertAssoc : List (String × String) → String → String →
    List (String × String)
  | [], k, v => [(k, v)]
  | (k', v') :: rest, k, v =>
    if k' = k then (k, v) :: rest else (k', v') :: insertAssoc rest k v

/-- Python dict lookup `d.get(k)`. -/
def findAssoc : List (String × String) → String → Option String
  | [], _ => none
  | (k, v) :: rest, n => if k = n then some v else findAssoc rest n

/-- One iteration of the outer loop of `standardize_columns`: find the first
column matching this canonical field's aliases (the inner loop `break`s on the
first match) and record the rename. -/
def stepB (names : List String) (acc : List (String × String))
    (p : String × List String) : List (String × String) :=
  match names.find? (fun c => matchesVars p.2 c) with
  | some c => insertAssoc acc c p.1
  | none => acc

/-- The `standardized_columns` dict built by `standardize_columns`. -/
def buildMapping (names : List String) : List (String × String) :=
  get_column_mappings.foldl (stepB names) []

/-- `df.rename(columns=mapping)` applied to a single column name. -/
def applyRename (m : List (String × String)) (n : String) : String :=
  match findAssoc m n with
  | some s => s
  | none => n

/-- `DataProcessor.standardize_columns`. -/
def standardize_columns (t : Table) : Table :=
  ⟨t.cols.map (fun p => (applyRename (buildMapping t.colNames) p.1, p.2))⟩

/-! ### DataProcessor: fill, parse, derive -/

/-- The required columns of `add_missing_columns`, in source order. -/
def required_columns : List String :=
  ["incident_id", "title", "category", "priority", "status",
   "created_date", "resolved_date", "assigned_team"]

/-- The five text fields defaulted to `"Unknown"`. -/
def textFields : List String :=
  ["title", "category", "priority", "status", "assigned_team"]

/-- Default cells for one missing required column: sequential ids for
`incident_id`, `"Unknown"` for text fields, `datetime.now()` (the `now`
parameter) for the two date fields. -/
def missingDefault (now : ℚ) (df : Table) (col : String) : List Cell :=
  if col = "incident_id" then
    (List.range df.nrows).map (fun i => some (Val.vnum ((i : ℚ) + 1)))
  else if col ∈ textFields then
    List.replicate df.nrows (some (Val.vstr "Unknown"))
  else
    List.replicate df.nrows (some (Val.vnum now))

/-- One iteration of the loop in `add_missing_columns`. -/
def addStep (now : ℚ) (df : Table) (col : String) : Table :=
  if col ∈ df.colNames then df else df.setCol col (missingDefault now df col)

/-- `DataProcessor.add_missing_columns`. -/
def add_missing_columns (now : ℚ) (df : Table) : Table :=
  required_columns.foldl (addStep now) df

/-- `pd.to_datetime(cells, errors='coerce')` given the parse function: null
stays null, an unparsable value becomes null. -/
def coerceDates (parse : Val → Option ℚ) (cs : List Cell) : List Cell :=
  cs.map (fun c => (c.bind parse).map Val.vnum)

/-- One iteration of the loop in `convert_date_columns`. -/
def convStep (parse : Val → Option ℚ) (t : Table) (col : String) : Table :=
  if col ∈ t.colNames then
    t.setCol col (coerceDates parse ((t.getCol col).getD []))
  else t

/-- `DataProcessor.convert_date_columns`. -/
def convert_date_columns (parse : Val → Option ℚ) (df : Table) : Table :=
  ["created_date", "resolved_date"].foldl (convStep parse) df

/-- `(resolved - created).dt.total_seconds() / 3600` for one row; `NaT`
propagates to null. -/
def hoursBetween (resolved created : Cell) : Cell :=
  (asNum resolved).bind (fun r => (asNum created).map (fun c => Val.vnum ((r - c) / 3600)))

/-- `resolution_time > 24` for one cell; pandas `NaN > 24` is `False`. -/
def overdueCell (c : Cell) : Bool :=
  match asNum c with
  | some q => decide (q > 24)
  | none => false

/-- `strftime` over a date column: null dates give null buckets. -/
def bucketCells (fmt : ℚ → String) (cs : List Cell) : List Cell :=
  cs.map (fun c => (asNum c).map (fun q => Val.vstr (fmt q)))

/-- The `is_overdue` column derived from the `resolution_time` column. -/
def overdueCells (cs : List Cell) : List Cell :=
  cs.map (fun c => some (Val.vbool (overdueCell c)))

/-- The `resolution_time` derivation step of `calculate_derived_fields`: only
when the column is absent. -/
def deriveRT (df : Table) : Table :=
  if "resolution_time" ∈ df.colNames then df
  else df.setCol "resolution_time"
    (List.zipWith hoursBetween ((df.getCol "resolved_date").getD [])
      ((df.getCol "created_date").getD []))

/-- The first three assignments of `calculate_derived_fields`: derived
`resolution_time` (when absent) and the two bucket columns. -/
def derivedBuckets (fmtYM fmtYW : ℚ → String) (df : Table) : Table :=
  ((deriveRT df).setCol "month_year"
      (bucketCells fmtYM (((deriveRT df).getCol "created_date").getD []))).setCol
    "week_year" (bucketCells fmtYW (((deriveRT df).getCol "created_date").getD []))

/-- `DataProcessor.calculate_derived_fields`: derive `resolution_time` (when
the column is absent), the `month_year`/`week_year` buckets (null for null
dates) and the `is_overdue` flag. -/
def calculate_derived_fields (fmtYM fmtYW : ℚ → String) (df : Table) : Table :=
  (derivedBuckets fmtYM fmtYW df).setCol "is_overdue"
    (overdueCells (((derivedBuckets fmtYM fmtYW df).getCol "resolution_time").getD []))

/-- The external behaviour `preprocess_data` depends on: the wall clock, the
date parser, and the two `strftime` formats. -/
structure Env where
  now : ℚ
  parse : Val → Option ℚ
  fmtYM : ℚ → String
  fmtYW : ℚ → String

/-- The body of `preprocess_data` on a loaded table (the success path of the
pipeline: standardize, fill, parse, derive). -/
def processTable (env : Env) (t : Table) : Table :=
  calculate_derived_fields env.fmtYM env.fmtYW
    (convert_date_columns env.parse
      (add_missing_columns env.now
        (standardize_columns t)))

/-- `DataProcessor.preprocess_data`: fails (returns `False`, modelled `none`)
when no raw data was loaded; otherwise produces the processed table. -/
def preprocess_data (env : Env) (raw : Option Table) : Option Table :=
  raw.map (processTable env)

/-! ### DataProcessor: loading and summary -/

/-- One uploaded file: its name and the result of `pd.read_excel` (`none`
when parsing raised and the file is skipped). -/
structure ExcelFile where
  name : String
  parsed : Option Table
deriving DecidableEq, Repr

/-- `df['source_file'] = file.name`. -/
def tagSource (name : String) (t : Table) : Table :=
  t.setCol "source_file" (List.replicate t.nrows (some (Val.vstr name)))

/-- Column-name union across tables, in first-appearance order (the column
layout of `pd.concat`). -/
def unionNames (ts : List Table) : List String :=
  ts.foldl (fun acc t => acc ++ (t.colNames.filter (fun n => n ∉ acc))) []

/-- `pd.concat(ts, ignore_index=True)`: row-wise concatenation; a table
missing a column contributes nulls for it. -/
def concatTables (ts : List Table) : Table :=
  ⟨(unionNames ts).map (fun n =>
    (n, (ts.map (fun t =>
      match t.getCol n with
      | some cs => cs
      | none => List.replicate t.nrows (none : Cell))).flatten))⟩

/-- `DataProcessor.load_excel_files`: skip unparsable files, combine the
rest; the boolean result is the return value, the table the resulting
`raw_data` (`none` when every file failed). -/
def load_excel_files (files : List ExcelFile) : Bool × Option Table :=
  let all_data := files.filterMap (fun f => f.parsed.map (tagSource f.name))
  if all_data.isEmpty then (false, none) else (true, some (concatTables all_data))

/-- Mean of a list of rationals, `none` when empty (pandas `mean` of an
empty/all-null series is `NaN`). -/
def meanOpt (xs : List ℚ) : Option ℚ :=
  if xs.isEmpty then none else some (xs.sum / (xs.length : ℚ))

/-- The summary dict of `get_data_summary`. -/
structure DataSummary where
  total_incidents : Nat
  avg_resolution_time : Option ℚ
  overdue_incidents : Nat
  unique_teams : Nat
  date_start : Option ℚ
  date_end : Option ℚ
deriving DecidableEq, Repr

/-- Minimum of a list of rationals (pandas `min`, `NaN` when empty). -/
def minOpt (xs : List ℚ) : Option ℚ :=
  match xs with
  | [] => none
  | x :: rest => some (rest.foldl min x)

/-- Maximum of a list of rationals (pandas `max`, `NaN` when empty). -/
def maxOpt (xs : List ℚ) : Option ℚ :=
  match xs with
  | [] => none
  | x :: rest => some (rest.foldl max x)

/-- `DataProcessor.get_data_summary`: `none` models the `{}` returned when no
processed data exists. -/
def get_data_summary (processed : Option Table) : Option DataSummary :=
  processed.map (fun t =>
    { total_incidents := t.nrows
      avg_resolution_time :=
        meanOpt (((t.getCol "resolution_time").getD []).filterMap asNum)
      overdue_incidents :=
        ((t.getCol "is_overdue").getD []).countP (fun c => c = some (Val.vbool true))
      unique_teams :=
        (((t.getCol "assigned_team").getD []).filterMap id).dedup.length
      date_start := minOpt (((t.getCol "created_date").getD []).filterMap asNum)
      date_end := maxOpt (((t.getCol "created_date").getD []).filterMap asNum) })

/-! ### Analyzers: the canonical record and pandas aggregation semantics

The analyzers read the canonical dataset.  `title` and `priority` are kept
nullable (the source guards them with `na=False`); `month_year` is nullable
(null `created_date` gives a null bucket and pandas `groupby` silently drops
null keys); the remaining classification fields are the non-null strings the
normalized dataset carries on the success path. -/

/-- One row of the canonical dataset, as the analyzers consume it. -/
structure Record where
  incident_id : ℤ
  title : Option String
  category : String
  priority : Option String
  status : String
  assigned_team : String
  created_date : Option ℚ
  resolution_time : Option ℚ
  month_year : Option String
  is_overdue : Bool
deriving DecidableEq, Repr

/-- Code-point lexicographic comparison of character lists — how Python
compares the strings these analyzers sort. -/
def leChars : List Char → List Char → Bool
  | [], _ => true
  | _ :: _, [] => false
  | c :: cs, d :: ds =>
    if c.toNat < d.toNat then true
    else if d.toNat < c.toNat then false
    else leChars cs ds

/-- `a <= b` on strings, by code points. -/
def strLe (a b : String) : Bool := leChars a.data b.data

/-- Ascending order on pairs of strings, as pandas sorts a two-level group
key. -/
def pairLeB (a b : String × String) : Bool :=
  (strLe a.1 b.1 && !(strLe b.1 a.1)) || (a.1 == b.1 && strLe a.2 b.2)

instance : DecidableRel (fun a b : String × String => pairLeB a b = true) :=
  fun _ _ => inferInstance

instance : DecidableRel (fun a b : String => strLe a b = true) :=
  fun _ _ => inferInstance

/-- The distinct values of `key` over the dataset, ascending — the group keys
of `df.groupby(...)` (null keys dropped, keys sorted). -/
def groupKeys (key : Record → Option (String × String)) (d : List Record) :
    List (String × String) :=
  List.insertionSort (fun a b => pairLeB a b = true) (d.filterMap key).dedup

/-- The distinct values of a single-column string key, ascending. -/
def groupKeys1 (key : Record → Option String) (d : List Record) : List String :=
  List.insertionSort (fun a b => strLe a b = true) (d.filterMap key).dedup

/-- The maximal multiplicity of any value in the list. -/
def maxCount (xs : List String) : Nat :=
  (xs.dedup.map (fun v => xs.countP (fun w => w = v))).foldr max 0

/-- `Series.mode()`: the values of maximal multiplicity, sorted ascending. -/
def modesOf (xs : List String) : List String :=
  List.insertionSort (fun a b => strLe a b = true)
    (xs.dedup.filter (fun v => xs.countP (fun w => w = v) = maxCount xs))

/-- The lambda aggregating `assigned_team` in `get_top_recurring_issues`:
`x.mode().iloc[0] if not x.empty else 'Unknown'` (`mode()` of a non-empty
series of non-null strings is non-empty, so `iloc[0]` is its sorted-first
value). -/
def modeFirst (xs : List String) : String :=
  match modesOf xs with
  | [] => "Unknown"
  | v :: _ => v

/-! ### RecurringIssuesAnalyzer -/

/-- One output row of `get_top_recurring_issues`. -/
structure IssueRow where
  category : String
  title : String
  frequency : Nat
  resolution_time : Option ℚ
  assigned_team : String
deriving DecidableEq, Repr

/-- The `(category, title)` group key; records with a null title have no key
and are dropped by `groupby`. -/
def issueKey (r : Record) : Option (String × String) :=
  r.title.map (fun t => (r.category, t))

/-- The aggregated row for one `(category, title)` group. -/
def issueRowFor (d : List Record) (k : String × String) : IssueRow :=
  let g := d.filter (fun r => issueKey r = some k)
  { category := k.1
    title := k.2
    frequency := g.length
    resolution_time := meanOpt (g.filterMap (·.resolution_time))
    assigned_team := modeFirst (g.map (·.assigned_team)) }

/-- Descending frequency, as `sort_values('frequency', ascending=False)`. -/
def freqGe (a b : IssueRow) : Prop := b.frequency ≤ a.frequency

instance : DecidableRel freqGe := fun a b => by
  unfold freqGe; infer_instance

/-- `RecurringIssuesAnalyzer.get_top_recurring_issues`. -/
def get_top_recurring_issues (data : Option (List Record)) (top_n : Nat) :
    Option (List IssueRow) :=
  match data with
  | none => none
  | some d =>
    if d.isEmpty then none
    else some
      ((List.insertionSort freqGe ((groupKeys issueKey d).map (issueRowFor d))).take top_n)

/-! ### SLAAnalyzer -/

/-- The SLA thresholds by priority label, in source order (hours). -/
def sla_thresholds : List (String × ℚ) :=
  [("Critical", 4), ("High", 8), ("Medium", 24), ("Low", 72)]

/-- Case-insensitive substring test, as `Series.str.contains(s, case=False)`
for a pattern without regex metacharacters. -/
def containsCI (hay needle : String) : Bool :=
  decide ((lowerString needle).data <:+: (lowerString hay).data)

/-- Whether a record matches a priority label: case-insensitive substring,
null priority matches nothing (`na=False`). -/
def priorityMatches (label : String) (r : Record) : Bool :=
  match r.priority with
  | some p => containsCI p label
  | none => false

/-- One output row of `analyze_sla_performance`. -/
structure SLARow where
  Priority : String
  Total_Incidents : Nat
  SLA_Met : Nat
  SLA_Percentage : ℚ
  Avg_Resolution_Time : Option ℚ
  SLA_Threshold : ℚ
deriving DecidableEq, Repr

/-- The `priority_data` subset of the loop body: records whose priority
matches the label. -/
def priorityData (d : List Record) (label : String) : List Record :=
  d.filter (priorityMatches label)

/-- The `met_sla` count of the loop body: matching records resolved within
the threshold (pandas `NaN <= thr` is false, so null resolution times do not
count). -/
def metSla (d : List Record) (label : String) (thr : ℚ) : Nat :=
  ((priorityData d label).filter (fun r =>
    match r.resolution_time with
    | some q => decide (q ≤ thr)
    | none => false)).length

/-- One iteration of the loop of `analyze_sla_performance`: the row for one
threshold entry, or nothing when no record matches the label. -/
def slaRowFor (d : List Record) (p : String × ℚ) : Option SLARow :=
  if (priorityData d p.1).length > 0 then
    some
      { Priority := p.1
        Total_Incidents := (priorityData d p.1).length
        SLA_Met := metSla d p.1 p.2
        SLA_Percentage :=
          (metSla d p.1 p.2 : ℚ) / ((priorityData d p.1).length : ℚ) * 100
        Avg_Resolution_Time :=
          meanOpt ((priorityData d p.1).filterMap (·.resolution_time))
        SLA_Threshold := p.2 }
  else none

/-- `SLAAnalyzer.analyze_sla_performance`. -/
def analyze_sla_performance (data : Option (List Record)) : Option (List SLARow) :=
  match data with
  | none => none
  | some d =>
    if d.isEmpty then none
    else some (sla_thresholds.filterMap (slaRowFor d))

/-! ### TeamAnalyzer -/

/-- One output row of `analyze_team_trends`. -/
structure TeamRow where
  assigned_team : String
  month_year : String
  total_incidents : Nat
  resolution_time : Option ℚ
  overdue_incidents : Nat
  overdue_percentage : ℚ
deriving DecidableEq, Repr

/-- The `(assigned_team, month_year)` group key; a null month drops the
record from the grouping. -/
def teamKey (r : Record) : Option (String × String) :=
  r.month_year.map (fun m => (r.assigned_team, m))

/-- The aggregated row for one `(assigned_team, month_year)` group. -/
def teamRowFor (d : List Record) (k : String × String) : TeamRow :=
  let g := d.filter (fun r => teamKey r = some k)
  { assigned_team := k.1
    month_year := k.2
    total_incidents := g.length
    resolution_time := meanOpt (g.filterMap (·.resolution_time))
    overdue_incidents := g.countP (·.is_overdue)
    overdue_percentage := ((g.countP (·.is_overdue) : ℚ) / (g.length : ℚ)) * 100 }

/-- `TeamAnalyzer.analyze_team_trends`. -/
def analyze_team_trends (data : Option (List Record)) : Option (List TeamRow) :=
  match data with
  | none => none
  | some d =>
    if d.isEmpty then none
    else some ((groupKeys teamKey d).map (teamRowFor d))

/-- One output row of `get_team_performance_summary`. -/
structure TeamSummaryRow where
  assigned_team : String
  total_incidents : Nat
  resolution_time : Option ℚ
  overdue_incidents : Nat
deriving DecidableEq, Repr

/-- `TeamAnalyzer.get_team_performance_summary`. -/
def get_team_performance_summary (data : Option (List Record)) :
    Option (List TeamSummaryRow) :=
  match data with
  | none => none
  | some d =>
    if d.isEmpty then none
    else some ((groupKeys1 (fun r => some r.assigned_team) d).map (fun team =>
      let g := d.filter (fun r => r.assigned_team = team)
      { assigned_team := team
        total_incidents := g.length
        resolution_time := meanOpt (g.filterMap (·.resolution_time))
        overdue_incidents := g.countP (·.is_overdue) }))

/-! ### TechDebtAnalyzer -/

/-- The tech-debt keyword set, in source order. -/
def tech_debt_keywords : List String :=
  ["legacy", "outdated", "deprecated", "technical debt", "refactor",
   "workaround", "hack", "temporary fix", "hotfix", "patch"]

/-- `title.str.contains('|'.join(keywords), case=False, na=False)` for one
record: any keyword as a case-insensitive substring, null title never
matches. -/
def titleMatchesDebt (r : Record) : Bool :=
  match r.title with
  | some t => tech_debt_keywords.any (fun k => containsCI t k)
  | none => false

/-- `TechDebtAnalyzer.identify_tech_debt_incidents`: empty result for an
absent or empty dataset, else the keyword-matching subset. -/
def identify_tech_debt_incidents (data : Option (List Record)) : List Record :=
  match data with
  | none => []
  | some d => if d.isEmpty then [] else d.filter titleMatchesDebt

/-- The dict returned by `calculate_tech_debt_indicators`. -/
structure TechDebtResult where
  total_debt_percentage : ℚ
  debt_by_team : List (String × Nat)
  debt_trend : List (String × Nat)
  debt_incidents : List Record
deriving DecidableEq, Repr

/-- Group sizes by a single string key over a list of records, keys
ascending (a `groupby(...).size()` table). -/
def groupSizes1 (key : Record → Option String) (d : List Record) :
    List (String × Nat) :=
  (groupKeys1 key d).map (fun k => (k, d.countP (fun r => key r = some k)))

/-- `TechDebtAnalyzer.calculate_tech_debt_indicators`.  `len(self.data)` is
evaluated with no preceding null-guard, so an absent dataset raises
`TypeError` — modelled as the `error` branch. -/
def calculate_tech_debt_indicators (data : Option (List Record)) :
    Except String TechDebtResult :=
  let tech_debt_incidents := identify_tech_debt_incidents data
  match data with
  | none => Except.error "TypeError: object of type NoneType has no len()"
  | some d =>
    let total_incidents := d.length
    let debt_incidents := tech_debt_incidents.length
    let debt_percentage : ℚ :=
      if total_incidents > 0 then
        ((debt_incidents : ℚ) / (total_incidents : ℚ)) * 100
      else 0
    Except.ok
      { total_debt_percentage := debt_percentage
        debt_by_team :=
          if tech_debt_incidents.isEmpty then []
          else groupSizes1 (fun r => some r.assigned_team) tech_debt_incidents
        debt_trend :=
          if tech_debt_incidents.isEmpty then []
          else groupSizes1 (·.month_year) tech_debt_incidents
        debt_incidents := tech_debt_incidents }

/-! ### TrendAnalyzer -/

/-- `TrendAnalyzer.get_monthly_trends`: incident counts by `month_year`
(null months dropped by `groupby`). -/
def get_monthly_trends (data : Option (List Record)) :
    Option (List (String × Nat)) :=
  match data with
  | none => none
  | some d => if d.isEmpty then none else some (groupSizes1 (·.month_year) d)

/-- Descending count with ascending value as pandas tie order stand-in, for
`value_counts`. -/
def countGe (a b : String × Nat) : Bool :=
  decide (b.2 < a.2) || (b.2 == a.2 && strLe a.1 b.1)

instance : DecidableRel (fun a b : String × Nat => countGe a b = true) :=
  fun _ _ => inferInstance

/-- `TrendAnalyzer.get_category_distribution`: `value_counts` of `category`,
descending by count. -/
def get_category_distribution (data : Option (List Record)) :
    Option (List (String × Nat)) :=
  match data with
  | none => none
  | some d =>
    if d.isEmpty then none
    else some (List.insertionSort (fun a b => countGe a b = true)
      (d.map (·.category) |>.dedup.map (fun c =>
        (c, d.countP (fun r => r.category = c)))))

/-- Sorted ascending list of rationals. -/
def sortQ (xs : List ℚ) : List ℚ := List.insertionSort (· ≤ ·) xs

/-- pandas `median`: middle of the sorted values, mean of the middle two for
even length, `NaN` when empty. -/
def medianOf (xs : List ℚ) : Option ℚ :=
  let s := sortQ xs
  if s.isEmpty then none
  else if s.length % 2 = 1 then s[s.length / 2]?
  else
    match s[s.length / 2 - 1]?, s[s.length / 2]? with
    | some a, some b => some ((a + b) / 2)
    | _, _ => none

/-- pandas sample variance (`ddof=1`); `std` is its square root, kept here as
the squared value to stay in `ℚ`.  `NaN` (`none`) below two samples. -/
def varianceOf (xs : List ℚ) : Option ℚ :=
  if xs.length < 2 then none
  else
    match meanOpt xs with
    | none => none
    | some m =>
      some ((xs.map (fun x => (x - m) * (x - m))).sum / ((xs.length : ℚ) - 1))

/-- One output row of `get_priority_analysis` (the `std` column is carried as
its square, see `varianceOf`). -/
structure PriorityRow where
  priority : String
  count : Nat
  mean : Option ℚ
  median : Option ℚ
  variance : Option ℚ
deriving DecidableEq, Repr

/-- `TrendAnalyzer.get_priority_analysis`. -/
def get_priority_analysis (data : Option (List Record)) :
    Option (List PriorityRow) :=
  match data with
  | none => none
  | some d =>
    if d.isEmpty then none
    else some ((groupKeys1 (·.priority) d).map (fun p =>
      let g := d.filter (fun r => r.priority = some p)
      let times := g.filterMap (·.resolution_time)
      { priority := p
        count := g.length
        mean := meanOpt times
        median := medianOf times
        variance := varianceOf times }))

/-- Spec-side description of one `(category, title)` group: the records
carrying exactly that pair. -/
def issueGroup (d : List Record) (cat tit : String) : List Record :=
  d.filter (fun r => r.category = cat ∧ r.title = some tit)

/-- Spec-side description of the aggregated team: a most-frequent value that
is least (in code-point string order) among the most-frequent values. -/
def IsLeastMode (xs : List String) (v : String) : Prop :=
  xs.countP (fun w => w = v) = maxCount xs ∧
  ∀ w ∈ xs, xs.countP (fun u => u = w) = maxCount xs → strLe v w = true

/-! ### Concrete inputs used in witnesses and counterexamples -/

/-- Whether a cell is null or numeric (the well-formedness the sources give
the `resolution_time` column on the pipeline's success path). -/
def numOrNull (c : Cell) : Bool :=
  match c with
  | none => true
  | some (Val.vnum _) => true
  | _ => false

/-- A concrete environment: time zero, numeric values parse as themselves,
constant bucket labels. -/
def env0 : Env :=
  { now := 0
    parse := fun v => match v with | Val.vnum q => some q | _ => none
    fmtYM := fun _ => "2024-01"
    fmtYW := fun _ => "2024-W01" }

/-- A one-row table whose `title` column holds a null cell. -/
def tNullTitle : Table := ⟨[("title", [none])]⟩

/-- A one-row table whose columns are exactly the canonical field names. -/
def tCanonical : Table :=
  ⟨[("incident_id", [some (Val.vnum 1)]), ("title", [some (Val.vstr "t")]),
    ("category", [some (Val.vstr "c")]), ("priority", [some (Val.vstr "High")]),
    ("status", [some (Val.vstr "Open")]), ("created_date", [some (Val.vnum 0)]),
    ("resolved_date", [some (Val.vnum 3600)]),
    ("assigned_team", [some (Val.vstr "T")]),
    ("resolution_time", [some (Val.vnum 1)])]⟩

/-- A one-row table with two columns that both alias `priority`. -/
def tDupPriority : Table :=
  ⟨[("severity", [some (Val.vstr "A")]), ("impact", [some (Val.vstr "B")])]⟩

/-- A one-row table carrying only the two date columns (one hour and three
hours past the epoch). -/
def tDates : Table :=
  ⟨[("created_date", [some (Val.vnum 3600)]),
    ("resolved_date", [some (Val.vnum 10800)])]⟩

/-- A four-row table supplying `resolution_time` directly: above threshold,
below threshold, null, negative. -/
def tRT : Table :=
  ⟨[("resolution_time",
     [some (Val.vnum 30), some (Val.vnum 10), none, some (Val.vnum (-5))])]⟩

/-- Three uploaded files: two parse, the middle one fails. -/
def filesW : List ExcelFile :=
  [⟨"a.xlsx", some ⟨[("title", [some (Val.vstr "t1")])]⟩⟩,
   ⟨"b.xlsx", none⟩,
   ⟨"c.xlsx", some ⟨[("title", [some (Val.vstr "t2"), none])]⟩⟩]

/-- Two records in the same `(category, title)` group with tied teams; the
earlier row's team (`"Zeta"`) sorts after the later row's (`"Alpha"`). -/
def recA : Record :=
  ⟨1, some "T", "C", some "High", "Open", "Zeta", some 0, some 1,
   some "2024-01", false⟩

/-- See `recA`. -/
def recB : Record :=
  ⟨2, some "T", "C", some "High", "Open", "Alpha", some 0, some 3,
   some "2024-01", false⟩

/-- One record of priority `Critical` resolved in 5 hours. -/
def recCrit : Record :=
  ⟨1, some "X", "C", some "Critical", "Open", "T1", some 0, some 5,
   some "2024-01", false⟩

/-- A tech-debt-titled record with a null `created_date` (hence a null
`month_year` bucket). -/
def recNull : Record :=
  ⟨1, some "legacy fix", "C", some "High", "Open", "T1", none, some 1,
   none, false⟩

/-! ### Helper lemmas: table primitives -/

theorem find?_setColCells_self (l : List (String × List Cell)) (n : String)
    (cs : List Cell) :
    (setColCells l n cs).find? (fun p => p.1 = n) = some (n, cs) := by
  induction l with
  | nil => simp [setColCells]
  | cons hd tl ih =>
    obtain ⟨m, ds⟩ := hd
    by_cases h : m = n
    · subst h; simp [setColCells]
    · simp [setColCells, h, List.find?, ih]

theorem find?_setColCells_ne (l : List (String × List Cell)) {m n : String}
    (h : m ≠ n) (cs : List Cell) :
    (setColCells l n cs).find? (fun p => p.1 = m) = l.find? (fun p => p.1 = m) := by
  induction l with
  | nil => simp [setColCells, h.symm]
  | cons hd tl ih =>
    obtain ⟨k, ds⟩ := hd
    by_cases hk : k = n
    · subst hk
      simp only [setColCells, if_pos rfl]
      simp [List.find?, h.symm]
    · simp only [setColCells, if_neg hk]
      by_cases hm : k = m
      · subst hm; simp [List.find?]
      · simp [List.find?, hm, ih]

theorem getCol_setCol_self (t : Table) (n : String) (cs : List Cell) :
    (t.setCol n cs).getCol n = some cs := by
  simp [Table.getCol, Table.setCol, find?_setColCells_self]

theorem getCol_setCol_ne (t : Table) {m n : String} (h : m ≠ n) (cs : List Cell) :
    (t.setCol n cs).getCol m = t.getCol m := by
  simp [Table.getCol, Table.setCol, find?_setColCells_ne _ h]

theorem colNames_setCol_of_mem {t : Table} {n : String} (h : n ∈ t.colNames)
    (cs : List Cell) : (t.setCol n cs).colNames = t.colNames := by
  obtain ⟨t⟩ := t
  simp only [Table.colNames, Table.setCol] at *
  induction t with
  | nil => simp at h
  | cons hd tl ih =>
    obtain ⟨k, ds⟩ := hd
    by_cases hk : k = n
    · subst hk; simp [setColCells]
    · simp only [List.map_cons, List.mem_cons] at h
      rcases h with h | h

      · exact absurd h.symm hk
      · simp [setColCells, hk, ih h]

theorem colNames_setCol_of_not_mem {t : Table} {n : String} (h : n ∉ t.colNames)
    (cs : List Cell) : (t.setCol n cs).colNames = t.colNames ++ [n] := by
  obtain ⟨t⟩ := t
  simp only [Table.colNames, Table.setCol] at *
  induction t with
  | nil => simp [setColCells]
  | cons hd tl ih =>
    obtain ⟨k, ds⟩ := hd
    simp only [List.map_cons, List.mem_cons] at h
    push_neg at h
    simp [setColCells, Ne.symm h.1, ih h.2]

theorem mem_colNames_setCol {t : Table} {m n : String} (cs : List Cell) :
    m ∈ (t.setCol n cs).colNames ↔ m ∈ t.colNames ∨ m = n := by
  by_cases h : n ∈ t.colNames
  · rw [colNames_setCol_of_mem h]
    constructor
    · exact Or.inl
    · rintro (hm | rfl) <;> [exact hm; exact h]
  · rw [colNames_setCol_of_not_mem h]
    simp

theorem getCol_eq_none_iff (t : Table) (n : String) :
    t.getCol n = none ↔ n ∉ t.colNames := by
  obtain ⟨t⟩ := t
  simp only [Table.getCol, Table.colNames]
  induction t with
  | nil => simp
  | cons hd tl ih =>
    obtain ⟨k, ds⟩ := hd
    by_cases hk : k = n
    · subst hk; simp [List.find?]
    · simp [List.find?, hk, ih, Ne.symm hk]

theorem getCol_isSome_of_mem {t : Table} {n : String} (h : n ∈ t.colNames) :
    ∃ cs, t.getCol n = some cs := by
  rcases hc : t.getCol n with _ | cs
  · exact absurd ((getCol_eq_none_iff t n).1 hc) (by simp [h])
  · exact ⟨cs, rfl⟩

/-! ### Helper lemmas: the fill / parse / derive stages -/

theorem getCol_addStep_ne {f col : String} (h : col ≠ f) (now : ℚ) (df : Table) :
    (addStep now df col).getCol f = df.getCol f := by
  unfold addStep
  split
  · rfl
  · exact getCol_setCol_ne _ (Ne.symm h) _

theorem mem_colNames_addStep {f col : String} {now : ℚ} {df : Table} :
    f ∈ (addStep now df col).colNames ↔ f ∈ df.colNames ∨ f = col := by
  unfold addStep
  split
  · constructor
    · exact Or.inl
    · rintro (hm | rfl) <;> assumption
  · exact mem_colNames_setCol _

theorem getCol_foldl_addStep_of_ne (now : ℚ) {f : String} :
    ∀ (ls : List String) (df : Table), (∀ g ∈ ls, g ≠ f) →
    (ls.foldl (addStep now) df).getCol f = df.getCol f := by
  intro ls
  induction ls with
  | nil => intro df _; rfl
  | cons g rest ih =>
    intro df h
    simp only [List.foldl_cons]
    rw [ih _ (fun g' hg' => h g' (List.mem_cons_of_mem g hg')),
      getCol_addStep_ne (h g (List.mem_cons_self g rest)) now df]

theorem getCol_foldl_addStep_of_present (now : ℚ) {f : String} :
    ∀ (ls : List String) (df : Table), f ∈ df.colNames →
    (ls.foldl (addStep now) df).getCol f = df.getCol f := by
  intro ls
  induction ls with
  | nil => intro df _; rfl
  | cons g rest ih =>
    intro df h
    by_cases hg : g = f
    · subst hg
      simp only [List.foldl_cons]
      rw [ih _ (mem_colNames_addStep.2 (Or.inl h))]
      unfold addStep
      rw [if_pos h]
    · simp only [List.foldl_cons]
      rw [ih _ (mem_colNames_addStep.2 (Or.inl h)), getCol_addStep_ne hg now df]

theorem getCol_foldl_addStep_of_absent (now : ℚ) {f : String} :
    ∀ (ls : List String) (df : Table), ls.Nodup → f ∈ ls → f ∉ df.colNames →
    ∃ df2 : Table,
      (ls.foldl (addStep now) df).getCol f = some (missingDefault now df2 f) := by
  intro ls
  induction ls with
  | nil => intro df _ hf _; simp at hf
  | cons g rest ih =>
    intro df hnd hf habs
    rcases List.mem_cons.1 hf with rfl | hf'
    · refine ⟨df, ?_⟩
      simp only [List.foldl_cons]
      have hrest : ∀ g' ∈ rest, g' ≠ f :=
        fun g' hg' => fun he => (List.nodup_cons.1 hnd).1 (he ▸ hg')
      rw [getCol_foldl_addStep_of_ne now rest _ hrest]
      unfold addStep
      rw [if_neg habs]
      exact getCol_setCol_self _ _ _
    · have hg : g ≠ f := fun he => (List.nodup_cons.1 hnd).1 (he ▸ hf')
      have habs2 : f ∉ (addStep now df g).colNames := by
        rw [mem_colNames_addStep]
        rintro (h | h)
        · exact habs h
        · exact hg h.symm
      obtain ⟨df2, hdf2⟩ := ih (addStep now df g) (List.nodup_cons.1 hnd).2 hf' habs2
      exact ⟨df2, by simpa [List.foldl_cons] using hdf2⟩

theorem mem_colNames_foldl_addStep (now : ℚ) :
    ∀ (ls : List String) (df : Table) (f : String),
    f ∈ (ls.foldl (addStep now) df).colNames ↔ f ∈ df.colNames ∨ f ∈ ls := by
  intro ls
  induction ls with
  | nil => intro df f; simp
  | cons g rest ih =>
    intro df f
    simp only [List.foldl_cons, ih, mem_colNames_addStep, List.mem_cons]
    constructor
    · rintro ((h | h) | h)
      · exact Or.inl h
      · exact Or.inr (Or.inl h)
      · exact Or.inr (Or.inr h)
    · rintro (h | h | h)
      · exact Or.inl (Or.inl h)
      · exact Or.inl (Or.inr h)
      · exact Or.inr h

theorem getCol_convStep_ne {f col : String} (h : col ≠ f) (p : Val → Option ℚ)
    (t : Table) : (convStep p t col).getCol f = t.getCol f := by
  unfold convStep
  split
  · exact getCol_setCol_ne _ (Ne.symm h) _
  · rfl

theorem convStep_of_mem {p : Val → Option ℚ} {t : Table} {col : String}
    (h : col ∈ t.colNames) :
    convStep p t col = t.setCol col (coerceDates p ((t.getCol col).getD [])) := by
  unfold convStep
  rw [if_pos h]

theorem colNames_convStep (p : Val → Option ℚ) (t : Table) (col : String) :
    (convStep p t col).colNames = t.colNames := by
  unfold convStep
  split
  · exact colNames_setCol_of_mem (by assumption) _
  · rfl

theorem getCol_convert_ne {f : String} (h1 : f ≠ "created_date")
    (h2 : f ≠ "resolved_date") (p : Val → Option ℚ) (t : Table) :
    (convert_date_columns p t).getCol f = t.getCol f := by
  unfold convert_date_columns
  simp only [List.foldl_cons, List.foldl_nil]
  rw [getCol_convStep_ne (Ne.symm h2), getCol_convStep_ne (Ne.symm h1)]

theorem colNames_convert (p : Val → Option ℚ) (t : Table) :
    (convert_date_columns p t).colNames = t.colNames := by
  unfold convert_date_columns
  simp only [List.foldl_cons, List.foldl_nil, colNames_convStep]

theorem getCol_convert_created (p : Val → Option ℚ) {t : Table}
    (hc : "created_date" ∈ t.colNames) :
    (convert_date_columns p t).getCol "created_date"
      = some (coerceDates p ((t.getCol "created_date").getD [])) := by
  unfold convert_date_columns
  simp only [List.foldl_cons, List.foldl_nil]
  rw [getCol_convStep_ne (by decide)]
  unfold convStep
  rw [if_pos hc]
  exact getCol_setCol_self _ _ _

theorem getCol_convert_resolved (p : Val → Option ℚ) {t : Table}
    (hr : "resolved_date" ∈ t.colNames) :
    (convert_date_columns p t).getCol "resolved_date"
      = some (coerceDates p ((t.getCol "resolved_date").getD [])) := by
  unfold convert_date_columns
  simp only [List.foldl_cons, List.foldl_nil]
  have hr1 : "resolved_date" ∈ (convStep p t "created_date").colNames := by
    rw [colNames_convStep]; exact hr
  have hne : (convStep p t "created_date").getCol "resolved_date"
      = t.getCol "resolved_date" := getCol_convStep_ne (by decide) p t
  rw [convStep_of_mem hr1, hne, getCol_setCol_self]

theorem getCol_deriveRT_ne {f : String} (h : f ≠ "resolution_time") (df : Table) :
    (deriveRT df).getCol f = df.getCol f := by
  unfold deriveRT
  split
  · rfl
  · exact getCol_setCol_ne _ h _

theorem getCol_deriveRT_absent {df : Table}
    (h : "resolution_time" ∉ df.colNames) :
    (deriveRT df).getCol "resolution_time"
      = some (List.zipWith hoursBetween ((df.getCol "resolved_date").getD [])
          ((df.getCol "created_date").getD [])) := by
  unfold deriveRT
  rw [if_neg h]
  exact getCol_setCol_self _ _ _

theorem getCol_derivedBuckets_ne {f : String} (h1 : f ≠ "resolution_time")
    (h2 : f ≠ "month_year") (h3 : f ≠ "week_year") (fmtYM fmtYW : ℚ → String)
    (df : Table) : (derivedBuckets fmtYM fmtYW df).getCol f = df.getCol f := by
  unfold derivedBuckets
  rw [getCol_setCol_ne _ h3, getCol_setCol_ne _ h2, getCol_deriveRT_ne h1]

theorem getCol_derivedBuckets_rt (fmtYM fmtYW : ℚ → String) (df : Table) :
    (derivedBuckets fmtYM fmtYW df).getCol "resolution_time"
      = (deriveRT df).getCol "resolution_time" := by
  unfold derivedBuckets
  rw [getCol_setCol_ne _ (by decide), getCol_setCol_ne _ (by decide)]

theorem getCol_derived_rt_eq_deriveRT (fmtYM fmtYW : ℚ → String) (df : Table) :
    (calculate_derived_fields fmtYM fmtYW df).getCol "resolution_time"
      = (deriveRT df).getCol "resolution_time" := by
  unfold calculate_derived_fields
  rw [getCol_setCol_ne _ (by decide), getCol_derivedBuckets_rt]

theorem getCol_derived_preserve {f : String} (h1 : f ≠ "resolution_time")
    (h2 : f ≠ "month_year") (h3 : f ≠ "week_year") (h4 : f ≠ "is_overdue")
    (fmtYM fmtYW : ℚ → String) (df : Table) :
    (calculate_derived_fields fmtYM fmtYW df).getCol f = df.getCol f := by
  unfold calculate_derived_fields
  rw [getCol_setCol_ne _ h4, getCol_derivedBuckets_ne h1 h2 h3]

theorem getCol_derived_rt_overdue (fmtYM fmtYW : ℚ → String) (df : Table) :
    ∃ rts : List Cell,
      (calculate_derived_fields fmtYM fmtYW df).getCol "resolution_time" = some rts ∧
      (calculate_derived_fields fmtYM fmtYW df).getCol "is_overdue"
        = some (overdueCells rts) := by
  have hsome : ∃ rts, (deriveRT df).getCol "resolution_time" = some rts := by
    by_cases h : "resolution_time" ∈ df.colNames
    · obtain ⟨cs, hcs⟩ := getCol_isSome_of_mem h
      unfold deriveRT
      rw [if_pos h]
      exact ⟨cs, hcs⟩
    · exact ⟨_, getCol_deriveRT_absent h⟩
  obtain ⟨rts, hrts⟩ := hsome
  have hb : (derivedBuckets fmtYM fmtYW df).getCol "resolution_time" = some rts := by
    rw [getCol_derivedBuckets_rt, hrts]
  refine ⟨rts, ?_, ?_⟩
  · unfold calculate_derived_fields
    rw [getCol_setCol_ne _ (by decide), hb]
  · unfold calculate_derived_fields
    rw [hb]
    simp only [Option.getD_some]
    exact getCol_setCol_self _ _ _

/-! ### Helper lemmas: schema mapping -/

theorem findAssoc_insertAssoc (m : List (String × String)) (k v n : String) :
    findAssoc (insertAssoc m k v) n = if n = k then some v else findAssoc m n := by
  induction m with
  | nil =>
    by_cases h : n = k
    · subst h; simp [insertAssoc, findAssoc]
    · have h' : ¬ k = n := fun he => h he.symm
      simp [insertAssoc, findAssoc, h, h']
  | cons hd tl ih =>
    obtain ⟨k', v'⟩ := hd
    by_cases hk : k' = k
    · subst hk
      by_cases h : n = k'
      · subst h; simp [insertAssoc, findAssoc]
      · have h' : ¬ k' = n := fun he => h he.symm
        simp [insertAssoc, findAssoc, h, h']
    · by_cases h : n = k'
      · subst h
        have hnk : ¬ n = k := fun he => hk (he ▸ rfl)
        simp [insertAssoc, hk, findAssoc, hnk]
      · have h' : ¬ k' = n := fun he => h he.symm
        simp [insertAssoc, hk, findAssoc, h, h', ih]

theorem mem_insertAssoc {k v : String} {p : String × String} :
    ∀ {m : List (String × String)}, p ∈ insertAssoc m k v → p ∈ m ∨ p = (k, v) := by
  intro m
  induction m with
  | nil => intro h; simpa [insertAssoc] using h
  | cons hd tl ih =>
    obtain ⟨k', v'⟩ := hd
    intro h
    by_cases hk : k' = k
    · subst hk
      simp only [insertAssoc, if_pos rfl, List.mem_cons, eq_self_iff_true,
        ite_true] at h
      rcases h with h | h
      · exact Or.inr h
      · exact Or.inl (List.mem_cons_of_mem _ h)
    · simp only [insertAssoc, if_neg hk, List.mem_cons] at h
      rcases h with h | h
      · exact Or.inl (h ▸ List.mem_cons_self _ _)
      · rcases ih h with h' | h'
        · exact Or.inl (List.mem_cons_of_mem _ h')
        · exact Or.inr h'

/-- The lowered alias lists of two distinct canonical fields never share an
entry (checked over the concrete synonym table). -/
theorem mappings_overlap_eq :
    ∀ p ∈ get_column_mappings, ∀ q ∈ get_column_mappings,
      (¬ ∀ x ∈ p.2.map lowerString, x ∉ q.2.map lowerString) → p = q := by
  decide

/-- Pairwise disjointness of the lowered alias lists. -/
theorem mappings_pairwise_disjoint :
    get_column_mappings.Pairwise
      (fun p q => ∀ x ∈ p.2.map lowerString, x ∉ q.2.map lowerString) := by
  decide

theorem matchesVars_mem_lower {vars : List String} {n : String}
    (h : matchesVars vars n = true) : lowerString n ∈ vars.map lowerString := by
  simpa [matchesVars] using h

theorem findAssoc_foldl_stepB_none (names : List String) :
    ∀ (ms : List (String × List String)) (acc : List (String × String))
      {n : String},
      (∀ p ∈ ms, names.find? (fun x => matchesVars p.2 x) ≠ some n) →
      findAssoc (ms.foldl (stepB names) acc) n = findAssoc acc n := by
  intro ms
  induction ms with
  | nil => intro acc n _; rfl
  | cons p rest ih =>
    intro acc n h
    simp only [List.foldl_cons]
    rw [ih _ (fun q hq => h q (List.mem_cons_of_mem p hq))]
    unfold stepB
    rcases hfind : names.find? (fun x => matchesVars p.2 x) with _ | c
    · rfl
    · have hc : c ≠ n := fun he => h p (List.mem_cons_self p rest) (he ▸ hfind)
      rw [findAssoc_insertAssoc, if_neg (Ne.symm hc)]

theorem findAssoc_foldl_stepB_first (names : List String) :
    ∀ (ms : List (String × List String)) (acc : List (String × String))
      {std c : String} {vars : List String},
      (std, vars) ∈ ms →
      names.find? (fun x => matchesVars vars x) = some c →
      ms.Pairwise (fun p q => ∀ x ∈ p.2.map lowerString,
        x ∉ q.2.map lowerString) →
      findAssoc (ms.foldl (stepB names) acc) c = some std := by
  intro ms
  induction ms with
  | nil => intro acc std c vars h; simp at h
  | cons p rest ih =>
    intro acc std c vars hmem hfind hpw
    rcases List.mem_cons.1 hmem with he | hmem'
    · subst he
      simp only [List.foldl_cons]
      have hrest : ∀ q ∈ rest, names.find? (fun x => matchesVars q.2 x) ≠ some c := by
        intro q hq habs
        have hq1 : matchesVars q.2 c = true := List.find?_some habs
        have hc1 : matchesVars vars c = true := List.find?_some hfind
        exact (List.pairwise_cons.1 hpw).1 q hq _ (matchesVars_mem_lower hc1)
          (matchesVars_mem_lower hq1)
      rw [findAssoc_foldl_stepB_none names rest _ hrest]
      unfold stepB
      rw [hfind, findAssoc_insertAssoc, if_pos rfl]
    · simp only [List.foldl_cons]
      exact ih _ hmem' hfind (List.pairwise_cons.1 hpw).2

theorem applyRename_eq_of_findAssoc_some {m : List (String × String)}
    {n s : String} (h : findAssoc m n = some s) : applyRename m n = s := by
  unfold applyRename
  rw [h]

theorem applyRename_eq_of_findAssoc_none {m : List (String × String)}
    {n : String} (h : findAssoc m n = none) : applyRename m n = n := by
  unfold applyRename
  rw [h]

/-- A canonical field name matches only its own alias list (checked over the
concrete synonym table). -/
theorem canonical_matches_eq :
    ∀ n ∈ canonical_fields, ∀ p ∈ get_column_mappings,
      matchesVars p.2 n = true → n = p.1 := by
  decide

theorem findAssoc_mem {n s : String} :
    ∀ {m : List (String × String)}, findAssoc m n = some s → (n, s) ∈ m := by
  intro m
  induction m with
  | nil => intro h; simp [findAssoc] at h
  | cons hd tl ih =>
    obtain ⟨k, v⟩ := hd
    intro h
    by_cases hk : k = n
    · subst hk
      simp only [findAssoc, if_pos rfl] at h
      obtain rfl : v = s := by injection h
      exact List.mem_cons_self _ _
    · simp only [findAssoc, if_neg hk] at h
      exact List.mem_cons_of_mem _ (ih h)

theorem foldl_stepB_id_aux (names : List String)
    (hnames : ∀ n ∈ names, ∀ p ∈ get_column_mappings,
      matchesVars p.2 n = true → n = p.1) :
    ∀ (ms : List (String × List String)), (∀ p ∈ ms, p ∈ get_column_mappings) →
    ∀ (acc : List (String × String)), (∀ pr ∈ acc, pr.1 = pr.2) →
    ∀ pr ∈ ms.foldl (stepB names) acc, pr.1 = pr.2 := by
  intro ms
  induction ms with
  | nil => intro _ acc hacc; exact hacc
  | cons p rest ih =>
    intro hsub acc hacc
    simp only [List.foldl_cons]
    refine ih (fun q hq => hsub q (List.mem_cons_of_mem p hq)) _ ?_
    unfold stepB
    rcases hfind : names.find? (fun x => matchesVars p.2 x) with _ | c
    · exact hacc
    · intro pr hpr
      rcases mem_insertAssoc hpr with h' | h'
      · exact hacc pr h'
      · subst h'
        exact hnames c (List.mem_of_find?_eq_some hfind)
          p (hsub p (List.mem_cons_self p rest)) (List.find?_some hfind)

theorem buildMapping_id {names : List String}
    (h : ∀ n ∈ names, n ∈ canonical_fields) :
    ∀ pr ∈ buildMapping names, pr.1 = pr.2 :=
  foldl_stepB_id_aux names
    (fun n hn p hp hm => canonical_matches_eq n (h n hn) p hp hm)
    get_column_mappings (fun _ hp => hp) [] (fun _ hpr => absurd hpr (by simp))

theorem applyRename_id {m : List (String × String)}
    (h : ∀ pr ∈ m, pr.1 = pr.2) (n : String) : applyRename m n = n := by
  unfold applyRename
  rcases hf : findAssoc m n with _ | s
  · rfl
  · exact (h (n, s) (findAssoc_mem hf)).symm

/-! ### Claim C7: schema mapping idempotence -/

/-- C7: for every table whose column names are canonical field names,
`standardize_columns` returns the table unchanged — schema mapping of an
already-canonical table is a no-op. -/
theorem standardize_columns_canonical_noop (t : Table)
    (h : ∀ n ∈ t.colNames, n ∈ canonical_fields) :
    standardize_columns t = t := by
  have hid : ∀ pr ∈ buildMapping t.colNames, pr.1 = pr.2 := buildMapping_id h
  obtain ⟨cols⟩ := t
  simp only [standardize_columns]
  congr 1
  have hf : ∀ p : String × List Cell,
      (applyRename (buildMapping (Table.colNames ⟨cols⟩)) p.1, p.2) = p := by
    intro p
    rw [applyRename_id hid]
  have hfe : (fun p : String × List Cell =>
      (applyRename (buildMapping (Table.colNames ⟨cols⟩)) p.1, p.2)) = id :=
    funext hf
  rw [hfe, List.map_id]

/-- C7 witness: the concrete one-row canonical table maps to itself. -/
theorem standardize_columns_canonical_noop_witness :
    standardize_columns tCanonical = tCanonical :=
  standardize_columns_canonical_noop tCanonical (by decide)

/-! ### Claim C2: duplicate alias columns -/

/-- C2 counterexample: for the table with columns `severity`, `impact` (both
aliases of `priority`, in this order), the canonical `priority` column holds
the FIRST column's data (`"A"`), and not — as the claim states — the later
column's (`"B"`). -/
theorem standardize_columns_dup_counterexample :
    standardize_columns tDupPriority =
      ⟨[("priority", [some (Val.vstr "A")]), ("impact", [some (Val.vstr "B")])]⟩ ∧
    ¬ (standardize_columns tDupPriority).getCol "priority"
        = some [some (Val.vstr "B")] := by
  constructor
  · decide
  · decide

/-- C2 (amended): when two or more source columns alias the same canonical
field, `standardize_columns` raises no error (it is a total function); the
FIRST matching column in the table's column order is renamed to the
canonical name, and every other column matching the same alias list keeps
its original name. -/
theorem standardize_columns_dup_spec (t : Table) (std c : String)
    (vars : List String) (hmem : (std, vars) ∈ get_column_mappings)
    (hfind : t.colNames.find? (fun n => matchesVars vars n) = some c) :
    ∀ (i : Nat) (p : String × List Cell), t.cols[i]? = some p →
      matchesVars vars p.1 = true →
      (standardize_columns t).cols[i]? =
        some (if p.1 = c then std else p.1, p.2) := by
  intro i p hip hmatch
  unfold standardize_columns
  rw [List.getElem?_map, hip, Option.map_some']
  by_cases hc : p.1 = c
  · have hfa : findAssoc (buildMapping t.colNames) c = some std :=
      findAssoc_foldl_stepB_first t.colNames get_column_mappings [] hmem hfind
        mappings_pairwise_disjoint
    rw [if_pos hc, hc, applyRename_eq_of_findAssoc_some hfa]
  · have hnone : findAssoc (buildMapping t.colNames) p.1 = none := by
      apply findAssoc_foldl_stepB_none
      intro q hq habs
      have hq1 : matchesVars q.2 p.1 = true := List.find?_some habs
      have hqe : q = (std, vars) := by
        apply mappings_overlap_eq q hq (std, vars) hmem
        intro hall
        exact hall (lowerString p.1) (matchesVars_mem_lower hq1)
          (matchesVars_mem_lower hmatch)
      rw [hqe] at habs
      rw [habs] at hfind
      exact hc (by injection hfind)
    rw [if_neg hc, applyRename_eq_of_findAssoc_none hnone]

/-- C2 witness: in `tDupPriority` the first matching column `severity` is
renamed to `priority` and the duplicate alias `impact` keeps its name. -/
theorem standardize_columns_dup_spec_witness :
    (standardize_columns tDupPriority).cols[0]? =
      some ("priority", [some (Val.vstr "A")]) ∧
    (standardize_columns tDupPriority).cols[1]? =
      some ("impact", [some (Val.vstr "B")]) := by
  have h0 := standardize_columns_dup_spec tDupPriority "priority" "severity"
    ["priority", "severity", "impact"] (by decide) (by decide)
    0 ("severity", [some (Val.vstr "A")]) (by decide) (by decide)
  have h1 := standardize_columns_dup_spec tDupPriority "priority" "severity"
    ["priority", "severity", "impact"] (by decide) (by decide)
    1 ("impact", [some (Val.vstr "B")]) (by decide) (by decide)
  constructor
  · simpa using h0
  · simpa using h1

/-! ### Claim C1: non-null text fields after normalization -/

theorem processTable_text_absent (env : Env) (t : Table) {f : String}
    (hreq : f ∈ required_columns) (hid : f ≠ "incident_id")
    (htf : f ∈ textFields) (hc : f ≠ "created_date") (hr : f ≠ "resolved_date")
    (hrt : f ≠ "resolution_time") (hmy : f ≠ "month_year")
    (hwy : f ≠ "week_year") (hio : f ≠ "is_overdue")
    (habs : f ∉ (standardize_columns t).colNames) :
    ∃ cs, (processTable env t).getCol f = some cs ∧
      ∀ c ∈ cs, c = some (Val.vstr "Unknown") := by
  obtain ⟨df2, hdf2⟩ := getCol_foldl_addStep_of_absent env.now required_columns
    (standardize_columns t) (by decide) hreq habs
  have hadd : (add_missing_columns env.now (standardize_columns t)).getCol f
      = some (List.replicate df2.nrows (some (Val.vstr "Unknown"))) := by
    rw [add_missing_columns, hdf2]
    unfold missingDefault
    rw [if_neg hid, if_pos htf]
  refine ⟨List.replicate df2.nrows (some (Val.vstr "Unknown")), ?_, ?_⟩
  · unfold processTable
    rw [getCol_derived_preserve hrt hmy hwy hio, getCol_convert_ne hc hr, hadd]
  · intro c hcmem
    exact List.eq_of_mem_replicate hcmem

theorem processTable_text_present (env : Env) (t : Table) {f : String}
    (hc : f ≠ "created_date") (hr : f ≠ "resolved_date")
    (hrt : f ≠ "resolution_time") (hmy : f ≠ "month_year")
    (hwy : f ≠ "week_year") (hio : f ≠ "is_overdue")
    (hpres : f ∈ (standardize_columns t).colNames) :
    (processTable env t).getCol f = (standardize_columns t).getCol f := by
  unfold processTable
  rw [getCol_derived_preserve hrt hmy hwy hio, getCol_convert_ne hc hr,
    add_missing_columns,
    getCol_foldl_addStep_of_present env.now required_columns _ hpres]

/-- C1 counterexample: the table whose `title` column holds one null cell
normalizes successfully to a dataset whose single record still has a null
`title` — the missing-column defaults are applied per column, not per
cell. -/
theorem preprocess_null_title_counterexample :
    preprocess_data env0 (some tNullTitle)
      = some (processTable env0 tNullTitle) ∧
    (processTable env0 tNullTitle).getCol "title" = some [none] := by
  constructor
  · rfl
  · decide

/-- C1 (amended): after normalization, each of the five text fields
(`title`, `category`, `priority`, `status`, `assigned_team`) whose column is
absent from the schema-mapped table holds the non-null default `"Unknown"`
in every record; a field whose column is present keeps its source cells, so
null cells in such a column survive normalization. -/
theorem preprocess_text_field_cells (env : Env) (t : Table) (f : String)
    (hf : f ∈ textFields) :
    (f ∉ (standardize_columns t).colNames →
      ∃ cs, (processTable env t).getCol f = some cs ∧
        ∀ c ∈ cs, c = some (Val.vstr "Unknown")) ∧
    (f ∈ (standardize_columns t).colNames →
      (processTable env t).getCol f = (standardize_columns t).getCol f) := by
  have hprops : f ∈ required_columns ∧ f ≠ "incident_id" ∧
      f ≠ "created_date" ∧ f ≠ "resolved_date" ∧ f ≠ "resolution_time" ∧
      f ≠ "month_year" ∧ f ≠ "week_year" ∧ f ≠ "is_overdue" := by
    fin_cases hf <;> refine ⟨by decide, by decide, by decide, by decide,
      by decide, by decide, by decide, by decide⟩
  obtain ⟨h1, h2, h3, h4, h5, h6, h7, h8⟩ := hprops
  constructor
  · intro habs
    exact processTable_text_absent env t h1 h2 hf h3 h4 h5 h6 h7 h8 habs
  · intro hpres
    exact processTable_text_present env t h3 h4 h5 h6 h7 h8 hpres

/-- C1 witness: for the concrete table `tNullTitle` the field `category` is
absent and is filled with `"Unknown"`, while the present `title` column is
passed through. -/
theorem preprocess_text_field_cells_witness :
    (∃ cs, (processTable env0 tNullTitle).getCol "category" = some cs ∧
      ∀ c ∈ cs, c = some (Val.vstr "Unknown")) ∧
    (processTable env0 tNullTitle).getCol "title"
      = (standardize_columns tNullTitle).getCol "title" := by
  constructor
  · exact (preprocess_text_field_cells env0 tNullTitle "category"
      (by decide)).1 (by decide)
  · exact (preprocess_text_field_cells env0 tNullTitle "title"
      (by decide)).2 (by decide)

/-! ### Claim C6: derived-field consistency -/

theorem zipWith_getElem?_of_some {α β γ : Type} (f : α → β → γ) :
    ∀ (as : List α) (bs : List β) (i : Nat) (a : α) (b : β),
      as[i]? = some a → bs[i]? = some b →
      (List.zipWith f as bs)[i]? = some (f a b) := by
  intro as
  induction as with
  | nil => intro bs i a b ha _; simp at ha
  | cons x xs ih =>
    intro bs i a b ha hb
    cases bs with
    | nil => simp at hb
    | cons y ys =>
      cases i with
      | zero =>
        simp only [List.getElem?_cons_zero, Option.some.injEq] at ha hb
        subst ha; subst hb
        simp [List.zipWith]
      | succ n =>
        simp only [List.getElem?_cons_succ] at ha hb
        simpa [List.zipWith] using ih ys n a b ha hb

/-- C6: when no source column supplies `resolution_time` (the column is
absent after schema mapping), every normalized record with non-null
`created_date` and `resolved_date` has `resolution_time` equal to
`resolved_date - created_date` expressed in hours (timestamps are seconds,
so the difference is divided by 3600). -/
theorem preprocess_resolution_time_derived (env : Env) (t : Table) (i : Nat)
    (c r : ℚ) (habs : "resolution_time" ∉ (standardize_columns t).colNames)
    (hc : (processTable env t).getCell "created_date" i = some (Val.vnum c))
    (hr : (processTable env t).getCell "resolved_date" i = some (Val.vnum r)) :
    (processTable env t).getCell "resolution_time" i
      = some (Val.vnum ((r - c) / 3600)) := by
  have habs3 : "resolution_time" ∉
      (convert_date_columns env.parse
        (add_missing_columns env.now (standardize_columns t))).colNames := by
    intro hmem
    rw [colNames_convert] at hmem
    rw [add_missing_columns] at hmem
    rcases (mem_colNames_foldl_addStep env.now required_columns _ _).1 hmem with
      h | h
    · exact habs h
    · exact absurd h (by decide)
  have hcreated : (processTable env t).getCol "created_date"
      = (convert_date_columns env.parse
          (add_missing_columns env.now (standardize_columns t))).getCol
          "created_date" := by
    unfold processTable
    rw [getCol_derived_preserve (by decide) (by decide) (by decide) (by decide)]
  have hresolved : (processTable env t).getCol "resolved_date"
      = (convert_date_columns env.parse
          (add_missing_columns env.now (standardize_columns t))).getCol
          "resolved_date" := by
    unfold processTable
    rw [getCol_derived_preserve (by decide) (by decide) (by decide) (by decide)]
  have hrtcol : (processTable env t).getCol "resolution_time"
      = some (List.zipWith hoursBetween
          (((convert_date_columns env.parse
              (add_missing_columns env.now (standardize_columns t))).getCol
              "resolved_date").getD [])
          (((convert_date_columns env.parse
              (add_missing_columns env.now (standardize_columns t))).getCol
              "created_date").getD [])) := by
    unfold processTable calculate_derived_fields
    rw [getCol_setCol_ne _ (by decide), getCol_derivedBuckets_rt,
      getCol_deriveRT_absent habs3]
  unfold Table.getCell at hc hr ⊢
  rw [hcreated] at hc
  rw [hresolved] at hr
  rw [hrtcol]
  have hcc := Option.join_eq_some.1 hc
  have hrc := Option.join_eq_some.1 hr
  simp only [Option.getD_some] at hcc hrc ⊢
  rw [zipWith_getElem?_of_some hoursBetween _ _ i _ _ hrc hcc]
  simp [hoursBetween, asNum]

/-- C6 witness: for `tDates` (created one hour, resolved three hours past
the epoch) the derived `resolution_time` is 2 hours. -/
theorem preprocess_resolution_time_derived_witness :
    (processTable env0 tDates).getCell "resolution_time" 0
      = some (Val.vnum 2) := by
  have h := preprocess_resolution_time_derived env0 tDates 0 3600 10800
    (by decide) (by decide) (by decide)
  rw [h]
  norm_num

/-! ### Claim C9: the overdue flag and the overdue total -/

theorem forall_mem_zipWith {α β γ : Type} (f : α → β → γ) (P : γ → Prop)
    (hf : ∀ a b, P (f a b)) :
    ∀ (as : List α) (bs : List β), ∀ x ∈ List.zipWith f as bs, P x := by
  intro as
  induction as with
  | nil => intro bs x hx; simp at hx
  | cons a as ih =>
    intro bs x hx
    cases bs with
    | nil => simp at hx
    | cons b bs =>
      rcases List.mem_cons.1 hx with rfl | hx'
      · exact hf a b
      · exact ih bs x hx'

theorem numOrNull_hoursBetween (resolved created : Cell) :
    numOrNull (hoursBetween resolved created) = true := by
  unfold hoursBetween
  rcases hres : asNum resolved with _ | r'
  · simp [numOrNull]
  · rcases hcre : asNum created with _ | c' <;> simp [numOrNull]

theorem overdueCell_iff (c : Cell) :
    overdueCell c = true ↔ ∃ q, c = some (Val.vnum q) ∧ 24 < q := by
  rcases c with _ | v
  · simp [overdueCell, asNum]
  · rcases v with s | q | b <;> simp [overdueCell, asNum]

/-- C9: after normalization (on a table whose `resolution_time` cells are
null or numeric, as on the pipeline's success path) the `is_overdue` column
is the pointwise `resolution_time > 24` test: a record's flag is true
exactly when its `resolution_time` is non-null and strictly greater than 24,
so records with null (or negative) `resolution_time` have `is_overdue =
false`, and `get_data_summary` counts exactly the records with a numeric
`resolution_time` above 24 as `overdue_incidents`. -/
theorem preprocess_is_overdue_spec (env : Env) (t : Table)
    (hnum : ∀ c ∈ ((standardize_columns t).getCol "resolution_time").getD [],
      numOrNull c = true) :
    ∃ rts, (processTable env t).getCol "resolution_time" = some rts ∧
      (processTable env t).getCol "is_overdue" = some (overdueCells rts) ∧
      (∀ c ∈ rts, numOrNull c = true) ∧
      (∀ c ∈ rts, (overdueCell c = true ↔ ∃ q, c = some (Val.vnum q) ∧ 24 < q)) ∧
      ∃ s, get_data_summary (some (processTable env t)) = some s ∧
        s.overdue_incidents = rts.countP (fun c => overdueCell c) := by
  obtain ⟨rts, hrt, hio⟩ := getCol_derived_rt_overdue env.fmtYM env.fmtYW
    (convert_date_columns env.parse
      (add_missing_columns env.now (standardize_columns t)))
  have hrt' : (processTable env t).getCol "resolution_time" = some rts := hrt
  have hio' : (processTable env t).getCol "is_overdue"
      = some (overdueCells rts) := hio
  have hder : (deriveRT (convert_date_columns env.parse
      (add_missing_columns env.now (standardize_columns t)))).getCol
      "resolution_time" = some rts := by
    rw [← getCol_derived_rt_eq_deriveRT env.fmtYM env.fmtYW]
    exact hrt
  have hdom : ∀ c ∈ rts, numOrNull c = true := by
    by_cases hpres : "resolution_time" ∈ (standardize_columns t).colNames
    · have hstd : (convert_date_columns env.parse
          (add_missing_columns env.now (standardize_columns t))).getCol
          "resolution_time" = (standardize_columns t).getCol "resolution_time" := by
        rw [getCol_convert_ne (by decide) (by decide), add_missing_columns,
          getCol_foldl_addStep_of_present env.now required_columns _ hpres]
      have hpres3 : "resolution_time" ∈ (convert_date_columns env.parse
          (add_missing_columns env.now (standardize_columns t))).colNames := by
        rw [colNames_convert, add_missing_columns,
          mem_colNames_foldl_addStep]
        exact Or.inl hpres
      unfold deriveRT at hder
      rw [if_pos hpres3, hstd] at hder
      rw [hder] at hnum
      simpa using hnum
    · have habs3 : "resolution_time" ∉ (convert_date_columns env.parse
          (add_missing_columns env.now (standardize_columns t))).colNames := by
        rw [colNames_convert, add_missing_columns,
          mem_colNames_foldl_addStep]
        rintro (h | h)
        · exact hpres h
        · exact absurd h (by decide)
      rw [getCol_deriveRT_absent habs3] at hder
      have hzip := Option.some.inj hder
      subst hzip
      exact forall_mem_zipWith hoursBetween (fun x => numOrNull x = true)
        numOrNull_hoursBetween _ _
  refine ⟨rts, hrt', hio', hdom, fun c _ => overdueCell_iff c, ?_⟩
  refine ⟨_, rfl, ?_⟩
  simp only [get_data_summary, Option.map_some']
  rw [hio']
  simp only [Option.getD_some, overdueCells, List.countP_map]
  apply List.countP_congr
  intro c _
  simp [Function.comp]

/-- C9 witness: for the concrete table `tRT` with `resolution_time` cells
`30`, `10`, null and `-5`, only the first record is overdue and the summary
counts one overdue incident. -/
theorem preprocess_is_overdue_spec_witness :
    ∃ rts, (processTable env0 tRT).getCol "resolution_time" = some rts ∧
      (processTable env0 tRT).getCol "is_overdue" = some (overdueCells rts) ∧
      (∀ c ∈ rts, numOrNull c = true) ∧
      (∀ c ∈ rts, (overdueCell c = true ↔ ∃ q, c = some (Val.vnum q) ∧ 24 < q)) ∧
      ∃ s, get_data_summary (some (processTable env0 tRT)) = some s ∧
        s.overdue_incidents = rts.countP (fun c => overdueCell c) :=
  preprocess_is_overdue_spec env0 tRT (by decide)

/-! ### Claim C8: loading, skipping and concatenation -/

theorem mem_unionNames_aux (m : String) :
    ∀ (ts : List Table) (acc : List String),
      (m ∈ acc ∨ ∃ t ∈ ts, m ∈ t.colNames) →
      m ∈ ts.foldl
        (fun acc t => acc ++ (t.colNames.filter (fun n => n ∉ acc))) acc := by
  intro ts
  induction ts with
  | nil =>
    intro acc h
    rcases h with h | ⟨t, ht, _⟩
    · exact h
    · simp at ht
  | cons t rest ih =>
    intro acc h
    simp only [List.foldl_cons]
    apply ih
    rcases h with h | ⟨u, hu, hmu⟩
    · exact Or.inl (List.mem_append_left _ h)
    · rcases List.mem_cons.1 hu with rfl | hu'
      · left
        by_cases hacc : m ∈ acc
        · exact List.mem_append_left _ hacc
        · exact List.mem_append_right _
            (List.mem_filter.2 ⟨hmu, by simpa using hacc⟩)
      · exact Or.inr ⟨u, hu', hmu⟩

theorem mem_unionNames {ts : List Table} {t : Table} (ht : t ∈ ts) {m : String}
    (hm : m ∈ t.colNames) : m ∈ unionNames ts :=
  mem_unionNames_aux m ts [] (Or.inr ⟨t, ht, hm⟩)

theorem find?_map_pairs (cellsF : String → List Cell) (n : String) :
    ∀ (names : List String), n ∈ names →
      ((names.map (fun m => (m, cellsF m))).find? (fun p => p.1 = n))
        = some (n, cellsF n) := by
  intro names
  induction names with
  | nil => intro h; simp at h
  | cons m rest ih =>
    intro h
    by_cases hm : m = n
    · subst hm; simp [List.find?]
    · rcases List.mem_cons.1 h with rfl | h'
      · exact absurd rfl hm
      · simp [List.find?, hm, ih h']

theorem getCol_concatTables {ts : List Table} {n : String}
    (hall : ∀ t ∈ ts, n ∈ t.colNames) (hne : ts ≠ []) :
    (concatTables ts).getCol n
      = some ((ts.map (fun t => (t.getCol n).getD [])).flatten) := by
  have hu : n ∈ unionNames ts := by
    cases ts with
    | nil => exact absurd rfl hne
    | cons t0 rest =>
      exact mem_unionNames (List.mem_cons_self t0 rest)
        (hall t0 (List.mem_cons_self t0 rest))
  unfold concatTables Table.getCol
  rw [find?_map_pairs _ n (unionNames ts) hu]
  simp only [Option.map_some']
  congr 2
  apply List.map_congr_left
  intro t ht
  obtain ⟨cs, hcs⟩ := getCol_isSome_of_mem (hall t ht)
  unfold Table.getCol at hcs
  rw [hcs]
  rfl

theorem getCol_tagSource (name : String) (t : Table) :
    (tagSource name t).getCol "source_file"
      = some (List.replicate t.nrows (some (Val.vstr name))) := by
  unfold tagSource
  exact getCol_setCol_self _ _ _

/-- C8: `load_excel_files` skips unparsable files and continues; it fails
(returns false with no combined data) exactly when zero files parse; when at
least one parses it returns true, the combined data is the row-wise
concatenation of the successfully parsed files in upload order, and the
`source_file` column tags each file's rows with that file's name. -/
theorem load_excel_files_spec (files : List ExcelFile) :
    ((load_excel_files files).1 = false ↔ ∀ f ∈ files, f.parsed = none) ∧
    ((load_excel_files files).1 = false → (load_excel_files files).2 = none) ∧
    ((load_excel_files files).1 = true →
      (load_excel_files files).2 =
        some (concatTables
          (files.filterMap (fun f => f.parsed.map (tagSource f.name))))) ∧
    ((load_excel_files files).1 = true →
      ∃ T, (load_excel_files files).2 = some T ∧
        T.getCol "source_file" =
          some ((files.filterMap (fun f => f.parsed.map (fun t =>
            List.replicate t.nrows (some (Val.vstr f.name))))).flatten)) := by
  by_cases hemp :
    (files.filterMap (fun f => f.parsed.map (tagSource f.name))).isEmpty
  · have hnil : files.filterMap (fun f => f.parsed.map (tagSource f.name)) = [] :=
      List.isEmpty_iff.1 hemp
    have hload : load_excel_files files = (false, none) := by
      unfold load_excel_files
      rw [if_pos hemp]
    refine ⟨?_, ?_, ?_, ?_⟩
    · constructor
      · intro _ f hf
        have := List.filterMap_eq_nil_iff.1 hnil f hf
        simpa using this
      · intro _; rw [hload]
    · intro _; rw [hload]
    · intro habs; rw [hload] at habs; simp at habs
    · intro habs; rw [hload] at habs; simp at habs
  · have hne : files.filterMap (fun f => f.parsed.map (tagSource f.name)) ≠ [] := by
      intro h
      rw [h] at hemp
      simp at hemp
    have hload : load_excel_files files =
        (true, some (concatTables
          (files.filterMap (fun f => f.parsed.map (tagSource f.name))))) := by
      unfold load_excel_files
      rw [if_neg hemp]
    refine ⟨?_, ?_, ?_, ?_⟩
    · constructor
      · intro h
        rw [hload] at h
        exact Bool.noConfusion h
      · intro hall
        exact absurd
          (List.filterMap_eq_nil_iff.2 (fun f hf => by rw [hall f hf]; rfl)) hne
    · intro habs; rw [hload] at habs; simp at habs
    · intro _; rw [hload]
    · intro _
      refine ⟨_, (by rw [hload]), ?_⟩
      have hall : ∀ t ∈ files.filterMap (fun f => f.parsed.map (tagSource f.name)),
          "source_file" ∈ t.colNames := by
        intro t' ht'
        obtain ⟨f, _, hft⟩ := List.mem_filterMap.1 ht'
        obtain ⟨tt, _, rfl⟩ := Option.map_eq_some'.1 hft
        unfold tagSource
        exact (mem_colNames_setCol _).2 (Or.inr rfl)
      rw [getCol_concatTables hall hne]
      congr 1
      rw [List.map_filterMap]
      congr 1
      apply List.filterMap_congr
      intro f _
      rw [Option.map_map]
      cases hf : f.parsed with
      | none => rfl
      | some tt =>
        simp only [Option.map_some', Function.comp]
        rw [getCol_tagSource]
        rfl

/-- C8 witness: of the three concrete uploads in `filesW` the middle file
fails and is skipped, loading succeeds, and the `source_file` column tags
the single row of `a.xlsx` and the two rows of `c.xlsx`. -/
theorem load_excel_files_spec_witness :
    (load_excel_files filesW).1 = true ∧
    ∃ T, (load_excel_files filesW).2 = some T ∧
      T.getCol "source_file" = some [some (Val.vstr "a.xlsx"),
        some (Val.vstr "c.xlsx"), some (Val.vstr "c.xlsx")] := by
  have h := (load_excel_files_spec filesW).2.2.2 (by decide)
  obtain ⟨T, hT, hcol⟩ := h
  refine ⟨by decide, T, hT, ?_⟩
  rw [hcol]
  decide

/-! ### Claim C3: analyzers on empty or absent input -/

/-- C3: every analyzer operation degrades to an empty or absent result on an
empty dataset, and on an absent dataset too — except
`calculate_tech_debt_indicators`, which evaluates `len(self.data)` with no
null-guard and raises a `TypeError` on an absent dataset instead of
degrading, contradicting the error-handling policy. -/
theorem analyzers_empty_absent_eval :
    get_top_recurring_issues none 10 = none ∧
    get_top_recurring_issues (some []) 10 = none ∧
    analyze_sla_performance none = none ∧
    analyze_sla_performance (some []) = none ∧
    analyze_team_trends none = none ∧
    analyze_team_trends (some []) = none ∧
    get_team_performance_summary none = none ∧
    get_team_performance_summary (some []) = none ∧
    identify_tech_debt_incidents none = [] ∧
    identify_tech_debt_incidents (some []) = [] ∧
    get_monthly_trends none = none ∧
    get_monthly_trends (some []) = none ∧
    get_category_distribution none = none ∧
    get_category_distribution (some []) = none ∧
    get_priority_analysis none = none ∧
    get_priority_analysis (some []) = none ∧
    calculate_tech_debt_indicators (some [])
      = Except.ok ⟨0, [], [], []⟩ ∧
    calculate_tech_debt_indicators none
      = Except.error "TypeError: object of type NoneType has no len()" := by
  exact ⟨rfl, rfl, rfl, rfl, rfl, rfl, rfl, rfl, rfl, rfl, rfl, rfl, rfl,
    rfl, rfl, rfl, rfl, rfl⟩

/-! ### Claim C5: SLA analysis per priority label -/

theorem slaRowFor_priority {d : List Record} {p : String × ℚ} {row : SLARow}
    (h : slaRowFor d p = some row) : row.Priority = p.1 := by
  unfold slaRowFor at h
  split at h
  · rw [Option.some.injEq] at h
    subst h
    rfl
  · exact absurd h (by simp)

theorem filter_priority_filterMap (d : List Record) (label : String) :
    ∀ ts : List (String × ℚ),
      ((ts.filterMap (slaRowFor d)).filter (fun row => row.Priority = label))
        = (ts.filter (fun p => p.1 = label)).filterMap (slaRowFor d) := by
  intro ts
  induction ts with
  | nil => rfl
  | cons p rest ih =>
    rcases hrow : slaRowFor d p with _ | row
    · by_cases hl : p.1 = label <;>
        simp [List.filterMap_cons, List.filter_cons, hrow, hl, ih]
    · have hp : row.Priority = p.1 := slaRowFor_priority hrow
      by_cases hl : p.1 = label
      · simp [List.filterMap_cons, List.filter_cons, hrow, hl, hp, ih]
      · simp [List.filterMap_cons, List.filter_cons, hrow, hl, hp, ih]

theorem sla_thresholds_filter {label : String} {thr : ℚ}
    (hmem : (label, thr) ∈ sla_thresholds) :
    sla_thresholds.filter (fun p => p.1 = label) = [(label, thr)] := by
  fin_cases hmem <;> decide

/-- C5: for a non-empty dataset and each label of the threshold table
`{Critical:4, High:8, Medium:24, Low:72}`, the SLA result holds exactly one
row for the label when at least one record's priority contains it
case-insensitively — with `Total_Incidents` the number of matching records,
`SLA_Met` the number of those with `resolution_time <= threshold` and
`SLA_Percentage = SLA_Met/Total_Incidents*100` — and no row at all when no
record matches. -/
theorem analyze_sla_performance_spec (d : List Record) (label : String)
    (thr : ℚ) (hne : d ≠ []) (hmem : (label, thr) ∈ sla_thresholds) :
    ∃ rows, analyze_sla_performance (some d) = some rows ∧
      rows.filter (fun row => row.Priority = label) =
        (if (priorityData d label).length > 0 then
          [{ Priority := label
             Total_Incidents := (priorityData d label).length
             SLA_Met := metSla d label thr
             SLA_Percentage :=
               (metSla d label thr : ℚ) / ((priorityData d label).length : ℚ) * 100
             Avg_Resolution_Time :=
               meanOpt ((priorityData d label).filterMap (·.resolution_time))
             SLA_Threshold := thr }]
         else []) := by
  have hsome : analyze_sla_performance (some d)
      = some (sla_thresholds.filterMap (slaRowFor d)) := by
    show (if d.isEmpty = true then none
      else some (sla_thresholds.filterMap (slaRowFor d))) = _
    rw [if_neg (by simpa [List.isEmpty_iff] using hne)]
  refine ⟨_, hsome, ?_⟩
  rw [filter_priority_filterMap, sla_thresholds_filter hmem]
  simp only [List.filterMap_cons, List.filterMap_nil]
  unfold slaRowFor
  by_cases hpos : (priorityData d label).length > 0
  · rw [if_pos hpos, if_pos hpos]
  · rw [if_neg hpos, if_neg hpos]

/-- C5 witness: the single record with priority `"Critical"` and
`resolution_time = 5` yields exactly one Critical row with
`Total_Incidents = 1`, `SLA_Met = 0` and `SLA_Percentage = 0`. -/
theorem analyze_sla_performance_spec_witness :
    ∃ rows, analyze_sla_performance (some [recCrit]) = some rows ∧
      rows.filter (fun row => row.Priority = "Critical") =
        [{ Priority := "Critical", Total_Incidents := 1, SLA_Met := 0,
           SLA_Percentage := 0, Avg_Resolution_Time := some 5,
           SLA_Threshold := 4 }] := by
  obtain ⟨rows, h1, h2⟩ := analyze_sla_performance_spec [recCrit] "Critical" 4
    (by decide) (by decide)
  refine ⟨rows, h1, ?_⟩
  rw [h2, if_pos (by decide : (priorityData [recCrit] "Critical").length > 0)]
  have hlen : (priorityData [recCrit] "Critical").length = 1 := by decide
  have hmet : metSla [recCrit] "Critical" 4 = 0 := by decide
  have havg : (priorityData [recCrit] "Critical").filterMap
      (fun r => r.resolution_time) = [5] := by decide
  rw [hlen, hmet, havg]
  simp [meanOpt]

/-! ### Claim C10: null month buckets are dropped from monthly aggregates -/

theorem countP_disjoint_add {α : Type} (p q : α → Bool) :
    ∀ (l : List α), (∀ a ∈ l, ¬(p a = true ∧ q a = true)) →
      l.countP p + l.countP q = l.countP (fun a => p a || q a) := by
  intro l
  induction l with
  | nil => intro _; rfl
  | cons x xs ih =>
    intro h
    have hx := h x (List.mem_cons_self x xs)
    have ih' := ih (fun a ha => h a (List.mem_cons_of_mem x ha))
    rcases hp : p x <;> rcases hq : q x
    · simp only [List.countP_cons, hp, hq]
      rw [← ih']
      simp
    · simp only [List.countP_cons, hp, hq]
      rw [← ih']
      simp
      omega
    · simp only [List.countP_cons, hp, hq]
      rw [← ih']
      simp
      omega
    · exact absurd ⟨hp, hq⟩ hx

theorem countP_keys_any {κ : Type} [DecidableEq κ] (key : Record → Option κ)
    (d : List Record) :
    ∀ (ks : List κ), ks.Nodup →
      (ks.map (fun k => d.countP (fun r => key r = some k))).sum
        = d.countP (fun r => ks.any (fun k => key r = some k)) := by
  intro ks
  induction ks with
  | nil => intro _; simp
  | cons k rest ih =>
    intro hnd
    simp only [List.map_cons, List.sum_cons]
    rw [ih (List.nodup_cons.1 hnd).2, countP_disjoint_add]
    · apply List.countP_congr
      intro r _
      simp [List.any_cons]
    · intro r _ hcontra
      obtain ⟨h1, h2⟩ := hcontra
      have hk1 : key r = some k := of_decide_eq_true h1
      obtain ⟨k', hk', hk2⟩ := List.any_eq_true.1 h2
      have : k = k' := by
        have := of_decide_eq_true hk2
        rw [hk1] at this
        exact Option.some.inj this
      exact (List.nodup_cons.1 hnd).1 (this ▸ hk')

theorem sum_counts_sorted {κ : Type} [DecidableEq κ] (r : κ → κ → Prop)
    [DecidableRel r] (key : Record → Option κ) (d : List Record) :
    ((List.insertionSort r (d.filterMap key).dedup).map
      (fun k => d.countP (fun x => key x = some k))).sum
      = d.countP (fun x => (key x).isSome) := by
  rw [List.Perm.sum_eq ((List.perm_insertionSort r _).map _)]
  rw [countP_keys_any key d _ (List.nodup_dedup _)]
  apply List.countP_congr
  intro x hx
  rcases hk : key x with _ | k
  · simp [hk]
  · simp only [hk, Option.isSome_some, List.any_eq_true]
    constructor
    · intro _; trivial
    · intro _
      exact ⟨k, List.mem_dedup.2 (List.mem_filterMap.2 ⟨x, hx, hk⟩), by simp⟩

/-- C10: every record with a null `created_date` (hence a null `month_year`
bucket) is silently excluded from the month-grouped aggregates — the monthly
trend, the per-team monthly trend, and the tech-debt monthly trend — so
whenever such a record exists, each of those tables' incident counts sums to
strictly less than the dataset size. -/
theorem month_null_dropped_spec (d : List Record)
    (hwf : ∀ r ∈ d, r.created_date = none → r.month_year = none)
    (hex : ∃ r ∈ d, r.created_date = none) :
    (∃ m, get_monthly_trends (some d) = some m ∧
      (m.map (·.2)).sum < d.length) ∧
    (∃ tm, analyze_team_trends (some d) = some tm ∧
      (tm.map (·.total_incidents)).sum < d.length) ∧
    (∃ res, calculate_tech_debt_indicators (some d) = Except.ok res ∧
      (res.debt_trend.map (·.2)).sum < d.length) := by
  obtain ⟨r0, hr0, hcr⟩ := hex
  have hmn : r0.month_year = none := hwf r0 hr0 hcr
  have hdne : d ≠ [] := by
    rintro rfl
    simp at hr0
  have hpos : 0 < d.length := List.length_pos.2 hdne
  have hmonth : d.countP (fun x => (x.month_year).isSome) < d.length := by
    rw [List.countP_eq_length_filter]
    exact List.length_filter_lt_length_iff_exists.2 ⟨r0, hr0, by simp [hmn]⟩
  have hsum1 : ((groupSizes1 (·.month_year) d).map (·.2)).sum
      = d.countP (fun x => (x.month_year).isSome) := by
    unfold groupSizes1 groupKeys1
    rw [List.map_map]
    exact sum_counts_sorted (fun a b => strLe a b = true) (·.month_year) d
  refine ⟨⟨groupSizes1 (·.month_year) d, ?_, ?_⟩,
    ⟨(groupKeys teamKey d).map (teamRowFor d), ?_, ?_⟩, ?_⟩
  · show (if d.isEmpty = true then none else some (groupSizes1 (·.month_year) d)) = _
    rw [if_neg (by simpa [List.isEmpty_iff] using hdne)]
  · rw [hsum1]
    exact hmonth
  · show (if d.isEmpty = true then none
      else some ((groupKeys teamKey d).map (teamRowFor d))) = _
    rw [if_neg (by simpa [List.isEmpty_iff] using hdne)]
  · rw [List.map_map]
    have hpt : ((fun row => row.total_incidents) ∘ teamRowFor d)
        = fun k => d.countP (fun x => teamKey x = some k) := by
      funext k
      show (d.filter (fun x => teamKey x = some k)).length = _
      rw [← List.countP_eq_length_filter]
    rw [hpt]
    unfold groupKeys
    rw [sum_counts_sorted (fun a b => pairLeB a b = true) teamKey d]
    calc d.countP (fun x => (teamKey x).isSome)
        = d.countP (fun x => (x.month_year).isSome) := by
          apply List.countP_congr
          intro x _
          simp [teamKey]
      _ < d.length := hmonth
  · have htdi : identify_tech_debt_incidents (some d)
        = d.filter titleMatchesDebt := by
      show (if d.isEmpty = true then [] else d.filter titleMatchesDebt) = _
      rw [if_neg (by simpa [List.isEmpty_iff] using hdne)]
    refine ⟨_, rfl, ?_⟩
    show ((if (identify_tech_debt_incidents (some d)).isEmpty = true then []
        else groupSizes1 (fun r => r.month_year)
          (identify_tech_debt_incidents (some d))).map (fun x => x.2)).sum
      < d.length
    rw [htdi]
    by_cases hemp : (d.filter titleMatchesDebt).isEmpty
    · rw [if_pos hemp]
      simpa using hpos
    · rw [if_neg hemp]
      have hsum2 : ((groupSizes1 (·.month_year) (d.filter titleMatchesDebt)).map
          (·.2)).sum
          = (d.filter titleMatchesDebt).countP (fun x => (x.month_year).isSome) := by
        unfold groupSizes1 groupKeys1
        rw [List.map_map]
        exact sum_counts_sorted (fun a b => strLe a b = true) (·.month_year) _
      rw [hsum2]
      by_cases hdebt : titleMatchesDebt r0 = true
      · have hr0tdi : r0 ∈ d.filter titleMatchesDebt :=
          List.mem_filter.2 ⟨hr0, hdebt⟩
        have h1 : (d.filter titleMatchesDebt).countP
            (fun x => (x.month_year).isSome) < (d.filter titleMatchesDebt).length := by
          rw [List.countP_eq_length_filter]
          exact List.length_filter_lt_length_iff_exists.2
            ⟨r0, hr0tdi, by simp [hmn]⟩
        exact lt_of_lt_of_le h1 (List.length_filter_le _ _)
      · have h1 : (d.filter titleMatchesDebt).countP
            (fun x => (x.month_year).isSome) ≤ (d.filter titleMatchesDebt).length :=
          List.countP_le_length _
        have h2 : (d.filter titleMatchesDebt).length < d.length :=
          List.length_filter_lt_length_iff_exists.2 ⟨r0, hr0, by simp [hdebt]⟩
        exact lt_of_le_of_lt h1 h2

/-- C10 witness: the single record with a null `created_date` yields empty
month-grouped tables whose counts sum to 0, strictly below the dataset size
1. -/
theorem month_null_dropped_spec_witness :
    (∃ m, get_monthly_trends (some [recNull]) = some m ∧
      (m.map (·.2)).sum < [recNull].length) ∧
    (∃ tm, analyze_team_trends (some [recNull]) = some tm ∧
      (tm.map (·.total_incidents)).sum < [recNull].length) ∧
    (∃ res, calculate_tech_debt_indicators (some [recNull]) = Except.ok res ∧
      (res.debt_trend.map (·.2)).sum < [recNull].length) :=
  month_null_dropped_spec [recNull] (by decide) ⟨recNull, by decide, by decide⟩

/-! ### Claim C4: top recurring issues -/

theorem leChars_refl : ∀ as : List Char, leChars as as = true := by
  intro as
  induction as with
  | nil => rfl
  | cons c cs ih => simp [leChars, ih]

theorem leChars_total : ∀ as bs : List Char,
    leChars as bs = true ∨ leChars bs as = true := by
  intro as
  induction as with
  | nil => intro bs; left; rfl
  | cons c cs ih =>
    intro bs
    cases bs with
    | nil => right; rfl
    | cons d ds =>
      by_cases h1 : c.toNat < d.toNat
      · left; simp [leChars, h1]
      · by_cases h2 : d.toNat < c.toNat
        · right; simp [leChars, h1, h2]
        · rcases ih ds with h | h
          · left; simp [leChars, h1, h2, h]
          · right; simp [leChars, h1, h2, h]

theorem leChars_trans : ∀ as bs cs : List Char,
    leChars as bs = true → leChars bs cs = true → leChars as cs = true := by
  intro as
  induction as with
  | nil => intro bs cs _ _; rfl
  | cons a as2 ih =>
    intro bs cs h1 h2
    cases bs with
    | nil => simp [leChars] at h1
    | cons b bs2 =>
      cases cs with
      | nil => simp [leChars] at h2
      | cons c cs2 =>
        simp only [leChars] at h1 h2 ⊢
        split_ifs at h1 h2 ⊢ <;>
          first
          | rfl
          | omega
          | exact ih bs2 cs2 h1 h2

instance : IsTotal String (fun a b => strLe a b = true) :=
  ⟨fun a b => leChars_total a.data b.data⟩

instance : IsTrans String (fun a b => strLe a b = true) :=
  ⟨fun a b c => leChars_trans a.data b.data c.data⟩

theorem issueKey_eq_iff (r : Record) (k : String × String) :
    issueKey r = some k ↔ (r.category = k.1 ∧ r.title = some k.2) := by
  unfold issueKey
  rcases ht : r.title with _ | t
  · simp
  · simp [Prod.ext_iff]

theorem foldr_max_mem : ∀ (l : List Nat), l ≠ [] → l.foldr max 0 ∈ l := by
  intro l
  induction l with
  | nil => intro h; exact absurd rfl h
  | cons x rest ih =>
    intro _
    cases rest with
    | nil => simp
    | cons y ys =>
      have hm := ih (by simp)
      simp only [List.foldr_cons] at hm ⊢
      rcases le_total x (y ⊔ List.foldr max 0 ys) with h | h
      · rw [max_eq_right h]
        exact List.mem_cons_of_mem x hm
      · rw [max_eq_left h]
        exact List.mem_cons_self x _

theorem le_foldr_max : ∀ (l : List Nat), ∀ x ∈ l, x ≤ l.foldr max 0 := by
  intro l
  induction l with
  | nil => intro x hx; simp at hx
  | cons y rest ih =>
    intro x hx
    rcases List.mem_cons.1 hx with rfl | hx'
    · exact le_max_left _ _
    · exact le_trans (ih x hx') (le_max_right _ _)

theorem mem_modesOf {xs : List String} {v : String} :
    v ∈ modesOf xs ↔
      v ∈ xs.dedup ∧ xs.countP (fun w => w = v) = maxCount xs := by
  unfold modesOf
  rw [List.mem_insertionSort, List.mem_filter]
  simp

theorem modesOf_ne_nil {xs : List String} (h : xs ≠ []) : modesOf xs ≠ [] := by
  have hd : xs.dedup ≠ [] := fun habs => h ((List.dedup_eq_nil xs).1 habs)
  have hmax : maxCount xs ∈ xs.dedup.map (fun v => xs.countP (fun w => w = v)) :=
    foldr_max_mem _ (by
      intro habs
      exact hd (List.map_eq_nil_iff.1 habs))
  obtain ⟨v, hv, hcv⟩ := List.mem_map.1 hmax
  have : v ∈ modesOf xs := mem_modesOf.2 ⟨hv, hcv⟩
  intro habs
  rw [habs] at this
  simp at this

theorem modeFirst_spec (xs : List String) (hxs : xs ≠ []) :
    IsLeastMode xs (modeFirst xs) := by
  have hmo := modesOf_ne_nil hxs
  have hsorted : List.Sorted (fun a b => strLe a b = true) (modesOf xs) :=
    List.sorted_insertionSort (fun a b => strLe a b = true) _
  rcases hm : modesOf xs with _ | ⟨m, rest⟩
  · exact absurd hm hmo
  · rw [hm] at hsorted
    have hmf : modeFirst xs = m := by
      unfold modeFirst
      rw [hm]
    constructor
    · rw [hmf]
      have hmem : m ∈ modesOf xs := by
        rw [hm]
        exact List.mem_cons_self m rest
      exact (mem_modesOf.1 hmem).2
    · intro v hv hcnt
      have hvm : v ∈ modesOf xs := mem_modesOf.2 ⟨List.mem_dedup.2 hv, hcnt⟩
      rw [hm] at hvm
      rw [hmf]
      rcases List.mem_cons.1 hvm with rfl | hv'
      · exact leChars_refl _
      · exact List.rel_of_sorted_cons hsorted v hv'

instance : IsTotal IssueRow freqGe :=
  ⟨fun a b => le_total b.frequency a.frequency⟩

instance : IsTrans IssueRow freqGe :=
  ⟨fun _ _ _ hab hbc => le_trans hbc hab⟩

/-- C4 counterexample: two records in the same group with teams `"Zeta"`
(first row) and `"Alpha"` (second row), each occurring once.  The claim's
tie-break (first mode value in the group's row order) predicts `"Zeta"`; the
code reports `"Alpha"`, the sorted-first mode. -/
theorem get_top_recurring_issues_counterexample :
    ∃ res, get_top_recurring_issues (some [recA, recB]) 10 = some res ∧
      res.map (fun row => (row.category, row.title, row.frequency,
        row.assigned_team)) = [("C", "T", 2, "Alpha")] ∧
      ("Alpha" : String) ≠ "Zeta" := by
  refine ⟨_, rfl, ?_, by decide⟩
  decide

/-- C4 (amended): for every non-empty dataset, `get_top_recurring_issues`
groups the records by the pair `(category, title)`, reports per group the
count as `frequency`, the mean `resolution_time` and a most frequent
`assigned_team` — where a tie between equally frequent team values is broken
by taking the least value in sorted order among the modes (`Series.mode`
returns the modes sorted ascending and `iloc[0]` takes the first) — and the
result is sorted descending by `frequency` and truncated to the top `n`
rows. -/
theorem get_top_recurring_issues_spec (d : List Record) (n : Nat)
    (hne : d ≠ []) :
    ∃ res, get_top_recurring_issues (some d) n = some res ∧
      res.length = min n (d.filterMap issueKey).dedup.length ∧
      List.Pairwise (fun a b => b.frequency ≤ a.frequency) res ∧
      ∀ row ∈ res,
        row.frequency = (issueGroup d row.category row.title).length ∧
        row.resolution_time = meanOpt
          ((issueGroup d row.category row.title).filterMap (·.resolution_time)) ∧
        IsLeastMode ((issueGroup d row.category row.title).map (·.assigned_team))
          row.assigned_team := by
  refine ⟨(List.insertionSort freqGe
    ((groupKeys issueKey d).map (issueRowFor d))).take n, ?_, ?_, ?_, ?_⟩
  · show (if d.isEmpty = true then none
      else some ((List.insertionSort freqGe
        ((groupKeys issueKey d).map (issueRowFor d))).take n)) = _
    rw [if_neg (by simpa [List.isEmpty_iff] using hne)]
  · rw [List.length_take]
    congr 1
    rw [(List.perm_insertionSort freqGe _).length_eq, List.length_map]
    unfold groupKeys
    exact (List.perm_insertionSort (fun a b => pairLeB a b = true) _).length_eq
  · have hs : List.Sorted freqGe (List.insertionSort freqGe
        ((groupKeys issueKey d).map (issueRowFor d))) :=
      List.sorted_insertionSort freqGe _
    exact (hs.sublist (List.take_sublist n _)).imp (fun h => h)
  · intro row hrow
    have hrow' : row ∈ List.insertionSort freqGe
        ((groupKeys issueKey d).map (issueRowFor d)) :=
      List.mem_of_mem_take hrow
    rw [List.mem_insertionSort] at hrow'
    obtain ⟨k, hk, rfl⟩ := List.mem_map.1 hrow'
    have hkmem : k ∈ (d.filterMap issueKey).dedup := by
      unfold groupKeys at hk
      exact (List.mem_insertionSort _).1 hk
    obtain ⟨r1, hr1, hr1k⟩ := List.mem_filterMap.1 (List.mem_dedup.1 hkmem)
    have hfilter : d.filter (fun r => issueKey r = some k)
        = issueGroup d k.1 k.2 := by
      apply List.filter_congr
      intro r _
      rw [decide_eq_decide]
      exact issueKey_eq_iff r k
    have hgne : issueGroup d k.1 k.2 ≠ [] := by
      intro habs
      have : r1 ∈ issueGroup d k.1 k.2 := by
        rw [← hfilter]
        exact List.mem_filter.2 ⟨hr1, by simpa using hr1k⟩
      rw [habs] at this
      simp at this
    have hcat : (issueRowFor d k).category = k.1 := rfl
    have htit : (issueRowFor d k).title = k.2 := rfl
    refine ⟨?_, ?_, ?_⟩
    · show (d.filter (fun r => issueKey r = some k)).length = _
      rw [hfilter, hcat, htit]
    · show meanOpt ((d.filter (fun r => issueKey r = some k)).filterMap
        (·.resolution_time)) = _
      rw [hfilter, hcat, htit]
    · rw [hcat, htit]
      have : (issueRowFor d k).assigned_team
          = modeFirst ((issueGroup d k.1 k.2).map (·.assigned_team)) := by
        show modeFirst ((d.filter (fun r => issueKey r = some k)).map
          (·.assigned_team)) = _
        rw [hfilter]
      rw [this]
      apply modeFirst_spec
      intro habs
      exact hgne (List.map_eq_nil_iff.1 habs)

/-- C4 witness: the amended description instantiated on the two-record
dataset. -/
theorem get_top_recurring_issues_spec_witness :
    ∃ res, get_top_recurring_issues (some [recA, recB]) 10 = some res ∧
      res.length = min 10 ([recA, recB].filterMap issueKey).dedup.length ∧
      List.Pairwise (fun a b => b.frequency ≤ a.frequency) res ∧
      ∀ row ∈ res,
        row.frequency = (issueGroup [recA, recB] row.category row.title).length ∧
        row.resolution_time = meanOpt
          ((issueGroup [recA, recB] row.category row.title).filterMap
            (·.resolution_time)) ∧
        IsLeastMode ((issueGroup [recA, recB] row.category row.title).map
          (·.assigned_team)) row.assigned_team :=
  get_top_recurring_issues_spec [recA, recB] 10 (by decide)

end Hub
